import Mathlib

/-!
Shallow embedding of `Source/CNTKv2LibraryDll/DistributedCommunicator.cpp`
(class `MPICommunicatorImpl` of namespace CNTK).

Tensors (`Value` / `NDArrayView` / `NDMask`) are modelled as records; the
pointer graph of `ValuePtr`s is modelled as a store (`List Value`) indexed
by natural-number references, so that aliasing (in-place aggregation) and
freshness of allocated outputs are expressible.  Element data is
`Option (List Int)`: `none` stands for freshly allocated, uninitialized
memory.  The MPI transport is a parameter (`MPIEnv`): `numNodes` is
`MPIWrapper::NumNodesInUse()`, and `reduce i` is the abstract effect of the
sum all-reduce on the buffer of slot `i` (the peers' contributions are
exogenous).  Every externally visible interaction of `AggregateImpl`
(async device-to-host copies, waits, non-blocking all-reduce issues,
wait-any observations, async host-to-device copy-backs and their final
waits) is recorded in an event trace, so that ordering claims are
statable.  Fatal failures (`RuntimeError`, `LogicError`, failed `assert`s,
`NOT_IMPLEMENTED`, and dereferencing a null mask pointer) set an `err`
field; once set, the remaining code of the call is not executed, matching
C++ exception/abort semantics.  `MPI_Waitany` is driven by a `schedule`
argument: each entry is the index the call returns (`none` standing for
`MPI_UNDEFINED`), which is the transport's choice, not the orchestrator's.
`DataType::Unknown` is not modelled (no claim touches the
`LogicError("Unknown DataType")` paths, which are unreachable for
float/double tensors).
-/

namespace CNTK

/-- DataType of CNTKLibrary: the two numeric types the communicator supports. -/
inductive DataType where
  | Float
  | Double
deriving DecidableEq, Repr, Inhabited

/-- DataTypeSize: bytes per element. -/
def DataTypeSize : DataType → Nat
  | DataType.Float => 4
  | DataType.Double => 8

/-- DeviceDescriptor, reduced to what the communicator inspects:
`Type()` (CPU vs GPU) and `Id()` for GPUs. -/
inductive Device where
  | cpu
  | gpu (id : Nat)
deriving DecidableEq, Repr, Inhabited

/-- StorageFormat of an NDArrayView. -/
inductive StorageFormat where
  | Dense
  | Sparse
deriving DecidableEq, Repr, Inhabited

/-- NDArrayView: shape (dims, `TotalSize` is their product), data type,
device, storage format and the dense data buffer.  `data = none` models a
freshly allocated, uninitialized buffer. -/
structure NDArrayView where
  dataType : DataType
  shape : List Nat
  device : Device
  storageFormat : StorageFormat
  data : Option (List Int)
deriving DecidableEq, Repr, Inhabited

/-- NDShape::TotalSize of a view's shape. -/
def NDArrayView.totalSize (v : NDArrayView) : Nat := v.shape.prod

/-- GetBufferSize of DistributedCommunicator.cpp:
`Shape().TotalSize() * DataTypeSize(GetDataType())`. -/
def GetBufferSize (v : NDArrayView) : Nat :=
  v.totalSize * DataTypeSize v.dataType

/-- NDMask, reduced to what `Aggregate` reads from it: `Shape()` and
`Device()`. -/
structure NDMask where
  shape : List Nat
  device : Device
deriving DecidableEq, Repr, Inhabited

/-- A CNTK Value: a data view and an optional validity mask
(`Value::Mask()` may be a null pointer). -/
structure Value where
  view : NDArrayView
  mask : Option NDMask
deriving DecidableEq, Repr, Inhabited

/-- The store of live Value objects; a `ValuePtr` is an index into it. -/
abbrev Store := List Value

/-- The Value a reference points at (out-of-range references never occur in
the claims' runs; they read as a default dummy). -/
def valueAt (store : Store) (r : Nat) : Value := store.getD r default

/-- DistributedWorkerDescriptor: global rank and host id. -/
structure WorkerDesc where
  globalRank : Nat
  hostId : String
deriving DecidableEq, Repr, Inhabited

/-- MPICommunicatorImpl::Buffer: one pinned staging buffer
(`totalSize` bytes; `data = none` models freshly allocated memory). -/
structure Buffer where
  totalSize : Nat
  data : Option (List Int)
deriving DecidableEq, Repr, Inhabited

/-- The communicator's per-device resources that persist across calls:
`m_gpuDataTransferers` (kept as the device id each transferer was created
for) and `m_intermediateCPUBuffers`. -/
structure CommState where
  gpuDataTransferers : List Nat
  intermediateCPUBuffers : List Buffer
deriving DecidableEq, Repr, Inhabited

/-- The MPI transport as seen by the communicator: the number of nodes and
the abstract numeric effect of a sum all-reduce on slot `i`'s buffer
contents (the other ranks' summands are exogenous to this worker). -/
structure MPIEnv where
  numNodes : Nat
  reduce : Nat → List Int → List Int

/-- The fatal outcomes of DistributedCommunicator.cpp: `RuntimeError`,
`LogicError`, a failed `assert` (debug semantics: fatal), the
`NOT_IMPLEMENTED` macro, and dereferencing a null `Mask()` pointer
(undefined behavior in C++, modelled as fatal). -/
inductive RunError where
  | runtimeError (msg : String)
  | logicError (msg : String)
  | assertFailed (msg : String)
  | notImplemented
  | nullMaskDeref
deriving DecidableEq, Repr

/-- The externally visible interactions of one `AggregateImpl` call, in
program order.  All are tagged with the position `i` of the value in the
call's input sequence. -/
inductive Event where
  | copyGPUToCPUAsync (i : Nat)
  | waitGPUToCPU (i : Nat)
  | allReduceAsync (i : Nat)
  | waitAnyReturned (i : Nat)
  | copyCPUToGPUAsync (i : Nat)
  | waitCPUToGPU (i : Nat)
deriving DecidableEq, Repr

/-- The mutable state of one call: communicator resources, the Value store,
the event trace so far, and the fatal error (if one was raised; once set,
no further code of the call runs). -/
structure St where
  comm : CommState
  store : Store
  trace : List Event
  err : Option RunError
deriving DecidableEq, Repr

/-- Overwrite the data field of the staging buffer at slot `g`. -/
def setBufferData (bufs : List Buffer) (g : Nat) (d : Option (List Int)) :
    List Buffer :=
  bufs.set g { bufs.getD g default with data := d }

/-- Overwrite the data field of the view of the Value at reference `r`. -/
def setViewData (store : Store) (r : Nat) (d : Option (List Int)) : Store :=
  let v := valueAt store r
  store.set r { v with view := { v.view with data := d } }

/-- Lines 96-105 of `MPICommunicatorImpl::Initialize`: grow
`m_intermediateCPUBuffers` to cover slot `index`, then (re)allocate the
buffer at `index` to exactly `required` bytes when it is absent or too
small (`AllocateIntermediateBuffer` returns a fresh pinned buffer of
exactly the requested size); a buffer that already fits is left as is. -/
def growBuffers (bufs : List Buffer) (index required : Nat) : List Buffer :=
  let bufs := if bufs.length < index + 1 then bufs ++ [default] else bufs
  if (bufs.getD index default).totalSize < required then
    bufs.set index { totalSize := required, data := none }
  else bufs

/-- The accumulator of `MPICommunicatorImpl::Initialize`'s loop: the
communicator resources, the per-value device-slot indices built so far
(`none` = CPUDEVICE), `numGPUValues`, `lastGpuDevice` (`none` while still
CPU), and the fatal error if one was raised. -/
structure InitSt where
  comm : CommState
  indices : List (Option Nat)
  numGPU : Nat
  lastGpu : Option Nat
  err : Option RunError
deriving DecidableEq, Repr

/-- Lines 96-107 of `Initialize` for one GPU value: take the next slot
index, lazily create the transferer for the device, grow the staging
buffer to the value's byte size, and record the slot. -/
def initGpuUpdate (st : InitSt) (id required : Nat) : InitSt :=
  let index := st.numGPU
  let transferers :=
    if st.comm.gpuDataTransferers.length < index + 1 then
      st.comm.gpuDataTransferers ++ [id]
    else st.comm.gpuDataTransferers
  let buffers := growBuffers st.comm.intermediateCPUBuffers index required
  { st with
    comm := { gpuDataTransferers := transferers, intermediateCPUBuffers := buffers }
    indices := st.indices ++ [some index]
    numGPU := index + 1 }

/-- The body of `Initialize`'s loop for one value: reject sparse storage,
skip CPU values, reject a second distinct GPU device id, and otherwise
assign the next device slot. -/
def initStep (store : Store) (st : InitSt) (ref : Nat) : InitSt :=
  if st.err.isSome then st
  else
    let view := (valueAt store ref).view
    if view.storageFormat ≠ StorageFormat.Dense then
      { st with err := some (RunError.runtimeError
          "Aggregation for sparse matrices is currently not supported!") }
    else
      match view.device with
      | Device.cpu => { st with indices := st.indices ++ [none] }
      | Device.gpu id =>
        match st.lastGpu with
        | none => initGpuUpdate { st with lastGpu := some id } id (GetBufferSize view)
        | some last =>
          if id = last then initGpuUpdate st id (GetBufferSize view)
          else
            { st with err := some (RunError.logicError
                "Not all values share the same GPU device id") }

/-- `Initialize`'s loop over the input values. -/
def initLoop (store : Store) : List Nat → InitSt → InitSt
  | [], st => st
  | r :: rest, st => initLoop store rest (initStep store st r)

/-- `MPICommunicatorImpl::Initialize(values)`: builds the per-value device
slot indices (`none` = CPUDEVICE) and grows the communicator's transferer
and staging-buffer arrays. -/
def Initialize (comm : CommState) (store : Store) (refs : List Nat) : InitSt :=
  initLoop store refs
    { comm := comm, indices := [], numGPU := 0, lastGpu := none, err := none }

/-- Lines 227-238 of `AggregateImpl` for one value: for a GPU-resident
value, issue the async device-to-host copy into its staging buffer. -/
def stageStep (gIdx : List (Option Nat)) (inputValues : List Nat) (i : Nat)
    (s : St) : St :=
  if s.err.isSome then s
  else
    match gIdx.getD i none with
    | none => s
    | some g =>
      let view := (valueAt s.store (inputValues.getD i 0)).view
      { s with
        trace := s.trace ++ [Event.copyGPUToCPUAsync i]
        comm := { s.comm with
          intermediateCPUBuffers := setBufferData s.comm.intermediateCPUBuffers g view.data } }

/-- The stage-in loop of `AggregateImpl` (lines 227-238). -/
def stageLoop (gIdx : List (Option Nat)) (inputValues : List Nat) :
    List Nat → St → St
  | [], s => s
  | i :: rest, s => stageLoop gIdx inputValues rest (stageStep gIdx inputValues i s)

/-- Lines 241-281 of `AggregateImpl` for one value: block on the value's
device-to-host copy if it is GPU resident, check the input/output pair's
element count, data type and device (the `assert`s of lines 258-260, fatal
under debug semantics), then issue the non-blocking all-reduce: in place on
the staging buffer for a GPU value (input and output data pointers both
point at the staging buffer), in place on the value's own buffer when input
and output alias, and out of place otherwise. -/
def reduceStep (env : MPIEnv) (gIdx : List (Option Nat))
    (inputValues outputValues : List Nat) (i : Nat) (s : St) : St :=
  if s.err.isSome then s
  else
    let gi := gIdx.getD i none
    let s1 :=
      match gi with
      | some _ => { s with trace := s.trace ++ [Event.waitGPUToCPU i] }
      | none => s
    let inRef := inputValues.getD i 0
    let outRef := outputValues.getD i 0
    let inView := (valueAt s1.store inRef).view
    let outView := (valueAt s1.store outRef).view
    if inView.totalSize ≠ outView.totalSize then
      { s1 with err := some (RunError.assertFailed
          "numElements == outputView Shape TotalSize") }
    else if inView.dataType ≠ outView.dataType then
      { s1 with err := some (RunError.assertFailed
          "dataType == outputView GetDataType") }
    else if inView.device ≠ outView.device then
      { s1 with err := some (RunError.assertFailed
          "inputView Device == outputView Device") }
    else
      match gi with
      | some g =>
        { s1 with
          trace := s1.trace ++ [Event.allReduceAsync i]
          comm := { s1.comm with
            intermediateCPUBuffers := setBufferData s1.comm.intermediateCPUBuffers g
              (((s1.comm.intermediateCPUBuffers.getD g default).data).map (env.reduce i)) } }
      | none =>
        if inRef = outRef then
          { s1 with
            trace := s1.trace ++ [Event.allReduceAsync i]
            store := setViewData s1.store outRef
              ((valueAt s1.store outRef).view.data.map (env.reduce i)) }
        else
          { s1 with
            trace := s1.trace ++ [Event.allReduceAsync i]
            store := setViewData s1.store outRef (inView.data.map (env.reduce i)) }

/-- The reduce loop of `AggregateImpl` (lines 240-281). -/
def reduceLoop (env : MPIEnv) (gIdx : List (Option Nat))
    (inputValues outputValues : List Nat) : List Nat → St → St
  | [], s => s
  | i :: rest, s =>
    reduceLoop env gIdx inputValues outputValues rest
      (reduceStep env gIdx inputValues outputValues i s)

/-- Lines 297-306 of `AggregateImpl`: one `MPI_Waitany` observation.  The
completed index is recorded; for a GPU-resident value the async
host-to-device copy-back of the reduced staging buffer into the output
view is issued immediately. -/
def drainStep (gIdx : List (Option Nat)) (outputValues : List Nat) (idx : Nat)
    (s : St) : St :=
  match gIdx.getD idx none with
  | none => { s with trace := s.trace ++ [Event.waitAnyReturned idx] }
  | some g =>
    { s with
      trace := s.trace ++ [Event.waitAnyReturned idx, Event.copyCPUToGPUAsync idx]
      store := setViewData s.store (outputValues.getD idx 0)
        ((s.comm.intermediateCPUBuffers.getD g default).data) }

/-- The drain loop of `AggregateImpl` (lines 285-307): repeat while fewer
than `numValues` completions were observed; each `MPI_Waitany` outcome is
the next `schedule` entry, `none` standing for `MPI_UNDEFINED`, on which
the loop breaks. -/
def drainLoop (gIdx : List (Option Nat)) (outputValues : List Nat)
    (numValues : Nat) : List (Option Nat) → Nat → St → St
  | [], _, s => s
  | e :: rest, completed, s =>
    if s.err.isSome then s
    else if numValues ≤ completed then s
    else
      match e with
      | none => s
      | some idx =>
        drainLoop gIdx outputValues numValues rest (completed + 1)
          (drainStep gIdx outputValues idx s)

/-- Lines 310-315 of `AggregateImpl` for one value: block on the
transferer's host-to-device copy for every GPU-resident value. -/
def finalStep (gIdx : List (Option Nat)) (i : Nat) (s : St) : St :=
  if s.err.isSome then s
  else
    match gIdx.getD i none with
    | none => s
    | some _ => { s with trace := s.trace ++ [Event.waitCPUToGPU i] }

/-- The final wait loop of `AggregateImpl` (lines 310-315). -/
def finalLoop (gIdx : List (Option Nat)) : List Nat → St → St
  | [], s => s
  | i :: rest, s => finalLoop gIdx rest (finalStep gIdx i s)

/-- `MPICommunicatorImpl::AggregateImpl(inputValues, outputValues,
sendToWorkers)`: early return when only one node participates or the
request is empty (after the size assert), then `Initialize`, the stage-in
loop, the reduce loop, the drain loop and the final wait loop.
`sendToWorkers` is ignored (`UNUSED`). -/
def AggregateImpl (env : MPIEnv) (comm : CommState) (store : Store)
    (inputValues outputValues : List Nat) (sendToWorkers : List WorkerDesc)
    (schedule : List (Option Nat)) : St :=
  let s0 : St := { comm := comm, store := store, trace := [], err := none }
  if env.numNodes = 1 then s0
  else if inputValues.length ≠ outputValues.length then
    { s0 with err := some (RunError.assertFailed
        "inputValues size == outputValues size") }
  else if inputValues.length = 0 then s0
  else
    let ini := Initialize comm store inputValues
    let n := inputValues.length
    let s1 : St := { s0 with comm := ini.comm, err := ini.err }
    let s2 := stageLoop ini.indices inputValues (List.range n) s1
    let s3 := reduceLoop env ini.indices inputValues outputValues (List.range n) s2
    let s4 := drainLoop ini.indices outputValues n schedule 0 s3
    finalLoop ini.indices (List.range n) s4

/-- Lines 128-132 of `MPICommunicatorImpl::Aggregate` for one input: the
fresh output view (`MakeSharedObject<NDArrayView>(dataType, shape,
device)`: dense, uninitialized data) and the fresh output mask built from
the input's mask, whose pointer is dereferenced unconditionally
(`inputMask->Shape()`, `inputMask->Device()`): a null mask is fatal. -/
def freshOutput (v : Value) : Option Value :=
  match v.mask with
  | none => none
  | some m =>
    some
      { view :=
          { dataType := v.view.dataType, shape := v.view.shape,
            device := v.view.device, storageFormat := StorageFormat.Dense,
            data := none }
        mask := some { shape := m.shape, device := m.device } }

/-- The accumulator of `Aggregate`'s output-allocation loop. -/
structure AllocSt where
  store : Store
  outputs : List Nat
  err : Option RunError
deriving DecidableEq, Repr

/-- One step of `Aggregate`'s output-allocation loop (lines 126-133). -/
def allocStep (st : AllocSt) (ref : Nat) : AllocSt :=
  if st.err.isSome then st
  else
    match freshOutput (valueAt st.store ref) with
    | none => { st with err := some RunError.nullMaskDeref }
    | some out =>
      { st with store := st.store ++ [out], outputs := st.outputs ++ [st.store.length] }

/-- `Aggregate`'s output-allocation loop. -/
def allocLoop : List Nat → AllocSt → AllocSt
  | [], st => st
  | r :: rest, st => allocLoop rest (allocStep st r)

/-- The result of `MPICommunicatorImpl::Aggregate`: the final call state
and the references of the returned output values. -/
structure AggResult where
  st : St
  outputs : List Nat
deriving DecidableEq, Repr

/-- `MPICommunicatorImpl::Aggregate(values, sendToWorkers)`: allocate
fresh outputs (each with a mask built by dereferencing the input's mask),
synchronize the compute stream when a GPU device is present (no modelled
effect: it is not a transport call), and delegate to `AggregateImpl`. -/
def Aggregate (env : MPIEnv) (comm : CommState) (store : Store)
    (values : List Nat) (sendToWorkers : List WorkerDesc)
    (schedule : List (Option Nat)) : AggResult :=
  let a := allocLoop values { store := store, outputs := [], err := none }
  match a.err with
  | some e =>
    { st := { comm := comm, store := a.store, trace := [], err := some e }
      outputs := a.outputs }
  | none =>
    { st := AggregateImpl env comm a.store values a.outputs sendToWorkers schedule
      outputs := a.outputs }

/-- `MPICommunicatorImpl::AggregateInPlace(values, sendToWorkers)`:
`AggregateImpl` with the outputs aliased to the inputs. -/
def AggregateInPlace (env : MPIEnv) (comm : CommState) (store : Store)
    (values : List Nat) (sendToWorkers : List WorkerDesc)
    (schedule : List (Option Nat)) : St :=
  AggregateImpl env comm store values values sendToWorkers schedule

/-- `MPICommunicatorImpl::SubGroup`: `NOT_IMPLEMENTED`. -/
def SubGroup (sendToWorkers : List WorkerDesc) : Except RunError Unit :=
  Except.error RunError.notImplemented

/-- `MPICommunicatorImpl::Concatenate`: `NOT_IMPLEMENTED`. -/
def Concatenate (values : List Nat) (sendToWorkers : List WorkerDesc) :
    Except RunError Unit :=
  Except.error RunError.notImplemented

/-- `MPICommunicatorImpl::QuantizedAggregate`: `NOT_IMPLEMENTED`. -/
def QuantizedAggregate (inValues : List Nat)
    (inPreviousQuantizationResidues : List Nat)
    (sendToWorkers : List WorkerDesc) (aggregatedOutputs : List Nat)
    (newQuantizationResidues : List Nat) : Except RunError Unit :=
  Except.error RunError.notImplemented

/-! Pure descriptions of the event segments each loop of `AggregateImpl`
emits, used to state and prove the temporal claims. -/

/-- Whether slot `i` of the device-slot mapping is GPU resident. -/
def gpuTag (gIdx : List (Option Nat)) (i : Nat) : Bool :=
  (gIdx.getD i none).isSome

/-- The events the stage-in loop emits. -/
def stageSeg (gIdx : List (Option Nat)) : List Nat → List Event
  | [] => []
  | i :: rest =>
    (if gpuTag gIdx i then [Event.copyGPUToCPUAsync i] else []) ++ stageSeg gIdx rest

/-- The events the reduce loop emits on a run where every pair passes the
asserts. -/
def reduceSeg (gIdx : List (Option Nat)) : List Nat → List Event
  | [] => []
  | i :: rest =>
    ((if gpuTag gIdx i then [Event.waitGPUToCPU i] else []) ++ [Event.allReduceAsync i])
      ++ reduceSeg gIdx rest

/-- The events the drain loop emits. -/
def drainSeg (gIdx : List (Option Nat)) (numValues : Nat) :
    List (Option Nat) → Nat → List Event
  | [], _ => []
  | e :: rest, completed =>
    if numValues ≤ completed then []
    else
      match e with
      | none => []
      | some idx =>
        (Event.waitAnyReturned idx ::
          (if gpuTag gIdx idx then [Event.copyCPUToGPUAsync idx] else []))
          ++ drainSeg gIdx numValues rest (completed + 1)

/-- The events the final wait loop emits. -/
def finalSeg (gIdx : List (Option Nat)) : List Nat → List Event
  | [] => []
  | i :: rest =>
    (if gpuTag gIdx i then [Event.waitCPUToGPU i] else []) ++ finalSeg gIdx rest

/-- The full event trace of a successful multi-worker `AggregateImpl`
call: stage-in, reduce, drain, final barrier. -/
def fullSeg (gIdx : List (Option Nat)) (n : Nat) (sched : List (Option Nat)) :
    List Event :=
  stageSeg gIdx (List.range n)
    ++ (reduceSeg gIdx (List.range n)
    ++ (drainSeg gIdx n sched 0
    ++ finalSeg gIdx (List.range n)))

/-- The metadata of a view: everything but the data buffer.  All writes the
communicator performs (all-reduce into a buffer, copy-back into a view)
change only data, never metadata. -/
def viewMeta (v : NDArrayView) : DataType × List Nat × Device × StorageFormat :=
  (v.dataType, v.shape, v.device, v.storageFormat)

/-- The whole metadata of a Value: view metadata plus the mask pointer.
No write of the communicator changes it. -/
def valueMeta (v : Value) :
    (DataType × List Nat × Device × StorageFormat) × Option NDMask :=
  (viewMeta v.view, v.mask)

/-- Input `i` and output `i` match in element count, data type and device
(the condition of the asserts at lines 258-260). -/
def PairMatched (store : Store) (inputValues outputValues : List Nat) (i : Nat) : Prop :=
  let inView := (valueAt store (inputValues.getD i 0)).view
  let outView := (valueAt store (outputValues.getD i 0)).view
  inView.totalSize = outView.totalSize ∧ inView.dataType = outView.dataType ∧
    inView.device = outView.device

instance (store : Store) (inputValues outputValues : List Nat) (i : Nat) :
    Decidable (PairMatched store inputValues outputValues i) := by
  unfold PairMatched; infer_instance

/-- The value at `r` is densely stored. -/
def DenseAt (store : Store) (r : Nat) : Prop :=
  (valueAt store r).view.storageFormat = StorageFormat.Dense

instance (store : Store) (r : Nat) : Decidable (DenseAt store r) := by
  unfold DenseAt; infer_instance

/-- The value at `r` is GPU resident. -/
def GpuAt (store : Store) (r : Nat) : Prop :=
  ∃ id, (valueAt store r).view.device = Device.gpu id

instance (store : Store) (r : Nat) : Decidable (GpuAt store r) := by
  unfold GpuAt
  match (valueAt store r).view.device with
  | Device.cpu => exact isFalse (by simp)
  | Device.gpu id => exact isTrue ⟨id, rfl⟩

/-- The GPU device id of the value at `r` (`none` for CPU residence). -/
def gpuIdOf (store : Store) (r : Nat) : Option Nat :=
  match (valueAt store r).view.device with
  | Device.cpu => none
  | Device.gpu id => some id

/-- At most one distinct GPU device id appears among the referenced
values. -/
def UniformGpu (store : Store) (refs : List Nat) : Prop :=
  ∀ r1 ∈ refs, ∀ r2 ∈ refs,
    gpuIdOf store r1 = none ∨ gpuIdOf store r2 = none ∨
      gpuIdOf store r1 = gpuIdOf store r2

instance (store : Store) (refs : List Nat) : Decidable (UniformGpu store refs) := by
  unfold UniformGpu; infer_instance

/-- The total size in bytes of staging-buffer slot `j` (0 when the slot
does not exist yet). -/
def slotSize (bufs : List Buffer) (j : Nat) : Nat :=
  (bufs.getD j default).totalSize

/-- The error state is not the null-mask dereference. -/
def NoMaskErr (e : Option RunError) : Prop := e ≠ some RunError.nullMaskDeref

/-- `lastGpuDevice` compatibility: every GPU id among the (remaining)
referenced values is the one `lastGpuDevice` already committed to, if it
committed at all. -/
def LastCompat (store : Store) (refs : List Nat) (lg : Option Nat) : Prop :=
  ∀ r ∈ refs, ∀ id, gpuIdOf store r = some id → (lg = none ∨ lg = some id)

/-! Concrete fixtures used by counterexamples and witnesses. -/

/-- A transport with a single node (`NumNodesInUse() == 1`). -/
def envOne : MPIEnv := { numNodes := 1, reduce := fun _ xs => xs }

/-- A transport with three nodes whose abstract sum-reduce triples each
element (each of the three ranks contributes the same summand). -/
def envThree : MPIEnv := { numNodes := 3, reduce := fun _ xs => xs.map (fun x => 3 * x) }

/-- A communicator with no per-device resources allocated yet. -/
def commEmpty : CommState := { gpuDataTransferers := [], intermediateCPUBuffers := [] }

/-- A dense CPU float tensor with the given contents and a present mask. -/
def cpuFloat (d : List Int) : Value :=
  { view := { dataType := DataType.Float, shape := [d.length], device := Device.cpu,
              storageFormat := StorageFormat.Dense, data := some d }
    mask := some { shape := [d.length], device := Device.cpu } }

/-- A dense GPU float tensor on device `id` with the given contents and a
present mask. -/
def gpuFloat (id : Nat) (d : List Int) : Value :=
  { view := { dataType := DataType.Float, shape := [d.length], device := Device.gpu id,
              storageFormat := StorageFormat.Dense, data := some d }
    mask := some { shape := [d.length], device := Device.gpu id } }

/-- A sparse CPU float tensor with a present mask. -/
def sparseFloat : Value :=
  { view := { dataType := DataType.Float, shape := [2], device := Device.cpu,
              storageFormat := StorageFormat.Sparse, data := some [1, 2] }
    mask := some { shape := [2], device := Device.cpu } }

/-- A dense CPU float tensor whose `Mask()` is a null pointer. -/
def noMaskFloat : Value :=
  { view := { dataType := DataType.Float, shape := [1], device := Device.cpu,
              storageFormat := StorageFormat.Dense, data := some [4] }
    mask := none }

end CNTK

namespace CNTK

/-! Generic list helpers (proved from scratch to keep the development
self-contained). -/

theorem getq_append_lt {α : Type} (l1 l2 : List α) (q : Nat) (h : q < l1.length) :
    (l1 ++ l2).get? q = l1.get? q := by
  induction l1 generalizing q with
  | nil => cases h
  | cons a t ih =>
    cases q with
    | zero => rfl
    | succ q => exact ih q (Nat.lt_of_succ_lt_succ h)

theorem getq_append_ge {α : Type} (l1 l2 : List α) (q : Nat) (h : l1.length ≤ q) :
    (l1 ++ l2).get? q = l2.get? (q - l1.length) := by
  induction l1 generalizing q with
  | nil => simp
  | cons a t ih =>
    cases q with
    | zero => cases h
    | succ q => simpa using ih q (Nat.le_of_succ_le_succ h)

theorem getq_mem {α : Type} {l : List α} {q : Nat} {a : α} (h : l.get? q = some a) :
    a ∈ l := by
  induction l generalizing q with
  | nil => cases h
  | cons b t ih =>
    cases q with
    | zero => cases h; exact List.mem_cons_self _ _
    | succ q => exact List.mem_cons_of_mem _ (ih h)

theorem getq_lt_length {α : Type} {l : List α} {q : Nat} {a : α}
    (h : l.get? q = some a) : q < l.length := by
  induction l generalizing q with
  | nil => cases h
  | cons b t ih =>
    cases q with
    | zero => exact Nat.succ_pos _
    | succ q => exact Nat.succ_lt_succ (ih h)

theorem getD_append_lt {α : Type} (l1 l2 : List α) (d : α) (q : Nat)
    (h : q < l1.length) : (l1 ++ l2).getD q d = l1.getD q d := by
  induction l1 generalizing q with
  | nil => cases h
  | cons a t ih =>
    cases q with
    | zero => rfl
    | succ q => exact ih q (Nat.lt_of_succ_lt_succ h)

theorem getD_append_ge {α : Type} (l1 l2 : List α) (d : α) (q : Nat)
    (h : l1.length ≤ q) : (l1 ++ l2).getD q d = l2.getD (q - l1.length) d := by
  induction l1 generalizing q with
  | nil => simp
  | cons a t ih =>
    cases q with
    | zero => cases h
    | succ q => simpa using ih q (Nat.le_of_succ_le_succ h)

theorem getD_set_ne {α : Type} (l : List α) (d : α) (i j : Nat) (a : α)
    (h : i ≠ j) : (l.set i a).getD j d = l.getD j d := by
  induction l generalizing i j with
  | nil => rfl
  | cons b t ih =>
    cases i with
    | zero =>
      cases j with
      | zero => exact absurd rfl h
      | succ j => rfl
    | succ i =>
      cases j with
      | zero => rfl
      | succ j => exact ih i j (fun e => h (by rw [e]))

theorem getD_set_self {α : Type} (l : List α) (d : α) (i : Nat) (a : α)
    (h : i < l.length) : (l.set i a).getD i d = a := by
  induction l generalizing i with
  | nil => cases h
  | cons b t ih =>
    cases i with
    | zero => rfl
    | succ i => exact ih i (Nat.lt_of_succ_lt_succ h)

theorem getD_ge_length {α : Type} (l : List α) (d : α) (i : Nat)
    (h : l.length ≤ i) : l.getD i d = d := by
  induction l generalizing i with
  | nil => rfl
  | cons b t ih =>
    cases i with
    | zero => cases h
    | succ i => exact ih i (Nat.le_of_succ_le_succ h)

/-! valueAt-level consequences. -/

theorem valueAt_append_lt (store tail : Store) (r : Nat) (h : r < store.length) :
    valueAt (store ++ tail) r = valueAt store r := by
  unfold valueAt; exact getD_append_lt _ _ _ _ h

theorem valueAt_append_ge (store tail : Store) (r : Nat) (h : store.length ≤ r) :
    valueAt (store ++ tail) r = valueAt tail (r - store.length) := by
  unfold valueAt; exact getD_append_ge _ _ _ _ h

theorem valueAt_set_ne (store : Store) (r r' : Nat) (v : Value) (h : r ≠ r') :
    valueAt (store.set r v) r' = valueAt store r' := by
  unfold valueAt; exact getD_set_ne _ _ _ _ _ h

theorem valueAt_set_self (store : Store) (r : Nat) (v : Value)
    (h : r < store.length) : valueAt (store.set r v) r = v := by
  unfold valueAt; exact getD_set_self _ _ _ _ h

theorem valueAt_ge_length (store : Store) (r : Nat) (h : store.length ≤ r) :
    valueAt store r = default := by
  unfold valueAt; exact getD_ge_length _ _ _ h

theorem DenseAt_append_lt (store tail : Store) (r : Nat) (h : r < store.length) :
    DenseAt (store ++ tail) r ↔ DenseAt store r := by
  unfold DenseAt; rw [valueAt_append_lt _ _ _ h]

theorem gpuIdOf_append_lt (store tail : Store) (r : Nat) (h : r < store.length) :
    gpuIdOf (store ++ tail) r = gpuIdOf store r := by
  unfold gpuIdOf; rw [valueAt_append_lt _ _ _ h]

/-! ### Error propagation: once a fatal error is raised, the rest of the
call does not run. -/

theorem initStep_frozen (store : Store) (st : InitSt) (r : Nat)
    (h : st.err.isSome) : initStep store st r = st := by
  unfold initStep; simp [h]

theorem initLoop_frozen (store : Store) (l : List Nat) (st : InitSt)
    (h : st.err.isSome) : initLoop store l st = st := by
  induction l with
  | nil => rfl
  | cons r rest ih => simp [initLoop, initStep_frozen store st r h, ih]

theorem stageStep_frozen (gIdx : List (Option Nat)) (inputValues : List Nat)
    (i : Nat) (s : St) (h : s.err.isSome) : stageStep gIdx inputValues i s = s := by
  unfold stageStep; simp [h]

theorem stageLoop_frozen (gIdx : List (Option Nat)) (inputValues : List Nat)
    (l : List Nat) (s : St) (h : s.err.isSome) : stageLoop gIdx inputValues l s = s := by
  induction l with
  | nil => rfl
  | cons i rest ih => simp [stageLoop, stageStep_frozen gIdx inputValues i s h, ih]

theorem reduceStep_frozen (env : MPIEnv) (gIdx : List (Option Nat))
    (inputValues outputValues : List Nat) (i : Nat) (s : St) (h : s.err.isSome) :
    reduceStep env gIdx inputValues outputValues i s = s := by
  unfold reduceStep; simp [h]

theorem reduceLoop_frozen (env : MPIEnv) (gIdx : List (Option Nat))
    (inputValues outputValues : List Nat) (l : List Nat) (s : St)
    (h : s.err.isSome) : reduceLoop env gIdx inputValues outputValues l s = s := by
  induction l with
  | nil => rfl
  | cons i rest ih =>
    simp [reduceLoop, reduceStep_frozen env gIdx inputValues outputValues i s h, ih]

theorem drainLoop_frozen (gIdx : List (Option Nat)) (outputValues : List Nat)
    (numValues : Nat) (sched : List (Option Nat)) (completed : Nat) (s : St)
    (h : s.err.isSome) : drainLoop gIdx outputValues numValues sched completed s = s := by
  cases sched with
  | nil => rfl
  | cons e rest => simp [drainLoop, h]

theorem finalStep_frozen (gIdx : List (Option Nat)) (i : Nat) (s : St)
    (h : s.err.isSome) : finalStep gIdx i s = s := by
  unfold finalStep; simp [h]

theorem finalLoop_frozen (gIdx : List (Option Nat)) (l : List Nat) (s : St)
    (h : s.err.isSome) : finalLoop gIdx l s = s := by
  induction l with
  | nil => rfl
  | cons i rest ih => simp [finalLoop, finalStep_frozen gIdx i s h, ih]

/-! ### The kinds of error each phase can raise.  `AggregateImpl` itself
never dereferences a mask; only `Aggregate`'s output allocation does. -/

theorem initGpuUpdate_err (st : InitSt) (id required : Nat) :
    (initGpuUpdate st id required).err = st.err := rfl

theorem initStep_noMask (store : Store) (st : InitSt) (r : Nat)
    (h : NoMaskErr st.err) : NoMaskErr (initStep store st r).err := by
  cases hse : st.err with
  | some e => rw [initStep_frozen store st r (by rw [hse]; rfl)]; exact h
  | none =>
    unfold NoMaskErr at h ⊢
    unfold initStep
    rw [hse]
    simp only [Option.isSome_none, Bool.false_eq_true, if_false]
    split
    · simp
    · split
      · simpa [hse] using h
      · split
        · simpa [initGpuUpdate, hse] using h
        · split
          · simpa [initGpuUpdate, hse] using h
          · simp

theorem initLoop_noMask (store : Store) (l : List Nat) (st : InitSt)
    (h : NoMaskErr st.err) : NoMaskErr (initLoop store l st).err := by
  induction l generalizing st with
  | nil => exact h
  | cons r rest ih => exact ih _ (initStep_noMask store st r h)

theorem stageStep_err (gIdx : List (Option Nat)) (inputValues : List Nat)
    (i : Nat) (s : St) : (stageStep gIdx inputValues i s).err = s.err := by
  cases hse : s.err with
  | some e => rw [stageStep_frozen _ _ _ _ (by rw [hse]; rfl)]; exact hse
  | none =>
    unfold stageStep
    rw [hse]
    simp only [Option.isSome_none, Bool.false_eq_true, if_false]
    split
    · first | rfl | exact hse
    · first | rfl | exact hse

theorem reduceStep_noMask (env : MPIEnv) (gIdx : List (Option Nat))
    (inputValues outputValues : List Nat) (i : Nat) (s : St)
    (h : NoMaskErr s.err) : NoMaskErr (reduceStep env gIdx inputValues outputValues i s).err := by
  cases hse : s.err with
  | some e =>
    rw [reduceStep_frozen env gIdx inputValues outputValues i s (by rw [hse]; rfl)]
    exact h
  | none =>
    unfold NoMaskErr at h ⊢
    unfold reduceStep
    rw [hse]
    simp only [Option.isSome_none, Bool.false_eq_true, if_false]
    cases hgi : gIdx.getD i none with
    | none =>
      simp only [hgi]
      split
      · simp
      · split
        · simp
        · split
          · simp
          · split <;> simp [hse]
    | some g =>
      simp only [hgi]
      split
      · simp
      · split
        · simp
        · split
          · simp
          · simp

theorem drainStep_err (gIdx : List (Option Nat)) (outputValues : List Nat)
    (idx : Nat) (s : St) : (drainStep gIdx outputValues idx s).err = s.err := by
  unfold drainStep; split <;> rfl

theorem finalStep_err (gIdx : List (Option Nat)) (i : Nat) (s : St) :
    (finalStep gIdx i s).err = s.err := by
  cases hse : s.err with
  | some e => rw [finalStep_frozen _ _ _ (by rw [hse]; rfl)]; exact hse
  | none =>
    unfold finalStep
    rw [hse]
    simp only [Option.isSome_none, Bool.false_eq_true, if_false]
    split
    · first | rfl | exact hse
    · first | rfl | exact hse

theorem stageLoop_noMask (gIdx : List (Option Nat)) (inputValues : List Nat)
    (l : List Nat) (s : St) (h : NoMaskErr s.err) :
    NoMaskErr (stageLoop gIdx inputValues l s).err := by
  induction l generalizing s with
  | nil => exact h
  | cons i rest ih =>
    exact ih _ (by rw [stageStep_err]; exact h)

theorem reduceLoop_noMask (env : MPIEnv) (gIdx : List (Option Nat))
    (inputValues outputValues : List Nat) (l : List Nat) (s : St)
    (h : NoMaskErr s.err) :
    NoMaskErr (reduceLoop env gIdx inputValues outputValues l s).err := by
  induction l generalizing s with
  | nil => exact h
  | cons i rest ih =>
    exact ih _ (reduceStep_noMask env gIdx inputValues outputValues i s h)

theorem drainLoop_noMask (gIdx : List (Option Nat)) (outputValues : List Nat)
    (numValues : Nat) (sched : List (Option Nat)) (completed : Nat) (s : St)
    (h : NoMaskErr s.err) :
    NoMaskErr (drainLoop gIdx outputValues numValues sched completed s).err := by
  induction sched generalizing completed s with
  | nil => exact h
  | cons e rest ih =>
    cases hse : s.err with
    | some er =>
      rw [drainLoop_frozen gIdx outputValues numValues (e :: rest) completed s
        (by rw [hse]; rfl)]
      exact h
    | none =>
      unfold drainLoop
      rw [hse]
      simp only [Option.isSome_none, Bool.false_eq_true, if_false]
      split
      · simp [NoMaskErr, hse]
      · cases e with
        | none => simp [NoMaskErr, hse]
        | some idx => exact ih _ _ (by rw [drainStep_err]; exact h)

theorem finalLoop_noMask (gIdx : List (Option Nat)) (l : List Nat) (s : St)
    (h : NoMaskErr s.err) : NoMaskErr (finalLoop gIdx l s).err := by
  induction l generalizing s with
  | nil => exact h
  | cons i rest ih =>
    exact ih _ (by rw [finalStep_err]; exact h)

theorem aggregateImpl_noMask (env : MPIEnv) (comm : CommState) (store : Store)
    (inputValues outputValues : List Nat) (sendToWorkers : List WorkerDesc)
    (schedule : List (Option Nat)) :
    NoMaskErr (AggregateImpl env comm store inputValues outputValues sendToWorkers schedule).err := by
  unfold AggregateImpl
  split
  · simp [NoMaskErr]
  · split
    · simp [NoMaskErr]
    · split
      · simp [NoMaskErr]
      · exact finalLoop_noMask _ _ _ (drainLoop_noMask _ _ _ _ _ _
          (reduceLoop_noMask _ _ _ _ _ _ (stageLoop_noMask _ _ _ _
            (initLoop_noMask store inputValues _ (by simp [NoMaskErr])))))

/-! ### The output-allocation loop of `Aggregate`. -/

theorem allocStep_frozen (st : AllocSt) (r : Nat) (h : st.err.isSome) :
    allocStep st r = st := by
  unfold allocStep; simp [h]

theorem allocLoop_frozen (l : List Nat) (st : AllocSt) (h : st.err.isSome) :
    allocLoop l st = st := by
  induction l with
  | nil => rfl
  | cons r rest ih => simp [allocLoop, allocStep_frozen st r h, ih]

theorem allocLoop_missing_mask (l : List Nat) : ∀ st : AllocSt, st.err = none →
    (∀ r ∈ l, r < st.store.length) →
    (∃ r ∈ l, (valueAt st.store r).mask = none) →
    (allocLoop l st).err = some RunError.nullMaskDeref := by
  induction l with
  | nil => rintro st h0 hv ⟨r, hr, _⟩; cases hr
  | cons a rest ih =>
    intro st h0 hv hex
    by_cases hm : (valueAt st.store a).mask = none
    · have hstep : (allocStep st a).err = some RunError.nullMaskDeref := by
        unfold allocStep
        simp [h0, freshOutput, hm]
      rw [allocLoop]
      rw [allocLoop_frozen rest _ (by rw [hstep]; rfl)]
      exact hstep
    · obtain ⟨r, hr, hrm⟩ := hex
      rcases List.mem_cons.mp hr with rfl | hr'
      · exact absurd hrm hm
      · obtain ⟨m, hm'⟩ := Option.ne_none_iff_exists'.mp hm
        have hstep : allocStep st a =
            { st with store := st.store ++ [(freshOutput (valueAt st.store a)).getD default],
                      outputs := st.outputs ++ [st.store.length] } := by
          unfold allocStep
          simp [h0, freshOutput, hm']
        rw [allocLoop, hstep]
        apply ih
        · exact h0
        · intro r' hr'2
          simp only [List.length_append, List.length_cons, List.length_nil]
          exact Nat.lt_succ_of_lt (hv r' (List.mem_cons_of_mem _ hr'2))
        · refine ⟨r, hr', ?_⟩
          have hlt : r < st.store.length := hv r hr
          rw [valueAt_append_lt _ _ _ hlt]
          exact hrm

theorem allocLoop_all_masks (l : List Nat) : ∀ st : AllocSt, st.err = none →
    (∀ r ∈ l, r < st.store.length) →
    (∀ r ∈ l, (valueAt st.store r).mask ≠ none) →
    (allocLoop l st).err = none := by
  induction l with
  | nil => intro st h0 _ _; exact h0
  | cons a rest ih =>
    intro st h0 hv hm
    obtain ⟨m, hm'⟩ := Option.ne_none_iff_exists'.mp (hm a (List.mem_cons_self a rest))
    have hstep : allocStep st a =
        { st with store := st.store ++ [(freshOutput (valueAt st.store a)).getD default],
                  outputs := st.outputs ++ [st.store.length] } := by
      unfold allocStep
      simp [h0, freshOutput, hm']
    rw [allocLoop, hstep]
    apply ih
    · exact h0
    · intro r' hr'
      simp only [List.length_append, List.length_cons, List.length_nil]
      exact Nat.lt_succ_of_lt (hv r' (List.mem_cons_of_mem _ hr'))
    · intro r' hr'
      have hlt : r' < st.store.length := hv r' (List.mem_cons_of_mem _ hr')
      rw [valueAt_append_lt _ _ _ hlt]
      exact hm r' (List.mem_cons_of_mem _ hr')

/-! ### The staging-buffer pool: get-or-grow behavior. -/

theorem set_ge_length {α : Type} (l : List α) (i : Nat) (a : α)
    (h : l.length ≤ i) : l.set i a = l := by
  induction l generalizing i with
  | nil => rfl
  | cons b t ih =>
    cases i with
    | zero => cases h
    | succ i => simp [List.set, ih i (Nat.le_of_succ_le_succ h)]

theorem growBuffers_fresh (bufs : List Buffer) (index required : Nat)
    (h : bufs.length = index) :
    (growBuffers bufs index required).getD index default
      = { totalSize := required, data := none } := by
  have hlen : bufs.length < index + 1 := by omega
  simp only [growBuffers]
  rw [if_pos hlen]
  have hget : ((bufs ++ [default]).getD index default) = (default : Buffer) := by
    rw [getD_append_ge _ _ _ _ (by omega)]
    simp [h]
  rw [hget]
  cases Nat.eq_zero_or_pos required with
  | inl h0 =>
    subst h0
    rw [if_neg (by simp)]
    rw [hget]
    rfl
  | inr h0 =>
    rw [if_pos (show (default : Buffer).totalSize < required from h0)]
    exact getD_set_self _ _ _ _ (by simp; omega)

theorem growBuffers_realloc (bufs : List Buffer) (index required : Nat)
    (h1 : index < bufs.length) (h2 : slotSize bufs index < required) :
    (growBuffers bufs index required).getD index default
      = { totalSize := required, data := none } := by
  have hlen : ¬ bufs.length < index + 1 := by omega
  simp only [growBuffers]
  rw [if_neg hlen]
  unfold slotSize at h2
  rw [if_pos h2]
  exact getD_set_self _ _ _ _ h1

theorem growBuffers_fits (bufs : List Buffer) (index required : Nat)
    (h1 : index < bufs.length) (h2 : required ≤ slotSize bufs index) :
    growBuffers bufs index required = bufs := by
  have hlen : ¬ bufs.length < index + 1 := by omega
  simp only [growBuffers]
  rw [if_neg hlen]
  unfold slotSize at h2
  rw [if_neg (by omega)]

theorem slotSize_growBuffers_le (bufs : List Buffer) (index required j : Nat) :
    slotSize bufs j ≤ slotSize (growBuffers bufs index required) j := by
  simp only [growBuffers, slotSize]
  have happ : (bufs.getD j default).totalSize ≤
      ((if bufs.length < index + 1 then bufs ++ [default] else bufs).getD j default).totalSize := by
    split
    · by_cases hj : j < bufs.length
      · rw [getD_append_lt _ _ _ _ hj]
      · rw [getD_ge_length bufs default j (by omega)]
        exact Nat.zero_le _
    · exact Nat.le_refl _
  set bufs' := if bufs.length < index + 1 then bufs ++ [default] else bufs with hb
  split
  · by_cases hj : index = j
    · subst hj
      by_cases hlen : index < bufs'.length
      · rw [getD_set_self _ _ _ _ hlen]
        have h1 : (bufs'.getD index default).totalSize < required := by assumption
        have h2 : ({ totalSize := required, data := none } : Buffer).totalSize = required := rfl
        omega
      · rw [set_ge_length _ _ _ (by omega)]
        exact happ
    · rw [getD_set_ne _ _ _ _ _ hj]
      exact happ
  · exact happ

theorem initStep_slotSize_le (store : Store) (st : InitSt) (r j : Nat) :
    slotSize st.comm.intermediateCPUBuffers j
      ≤ slotSize (initStep store st r).comm.intermediateCPUBuffers j := by
  simp only [initStep]
  split
  · exact Nat.le_refl _
  · split
    · exact Nat.le_refl _
    · split
      · exact Nat.le_refl _
      · split
        · exact slotSize_growBuffers_le _ _ _ _
        · split
          · exact slotSize_growBuffers_le _ _ _ _
          · exact Nat.le_refl _

theorem initLoop_slotSize_le (store : Store) (l : List Nat) (st : InitSt) (j : Nat) :
    slotSize st.comm.intermediateCPUBuffers j
      ≤ slotSize (initLoop store l st).comm.intermediateCPUBuffers j := by
  induction l generalizing st with
  | nil => exact Nat.le_refl _
  | cons r rest ih =>
    exact Nat.le_trans (initStep_slotSize_le store st r j) (ih _)

/-! ### Characterization of `Initialize`. -/

theorem gpuIdOf_none_device (store : Store) (r : Nat)
    (h : gpuIdOf store r = none) : (valueAt store r).view.device = Device.cpu := by
  unfold gpuIdOf at h
  cases hd : (valueAt store r).view.device with
  | cpu => rfl
  | gpu id => rw [hd] at h; cases h

theorem gpuIdOf_some_device (store : Store) (r : Nat) (id : Nat)
    (h : gpuIdOf store r = some id) : (valueAt store r).view.device = Device.gpu id := by
  unfold gpuIdOf at h
  cases hd : (valueAt store r).view.device with
  | cpu => rw [hd] at h; cases h
  | gpu id2 => rw [hd] at h; cases h; rfl

theorem initStep_sparse (store : Store) (st : InitSt) (r : Nat)
    (h0 : st.err = none) (hs : ¬ DenseAt store r) :
    initStep store st r = { st with err := some (RunError.runtimeError
      "Aggregation for sparse matrices is currently not supported!") } := by
  unfold initStep
  rw [h0]
  simp only [Option.isSome_none, Bool.false_eq_true, if_false]
  rw [if_pos (show (valueAt store r).view.storageFormat ≠ StorageFormat.Dense from hs)]

theorem initStep_cpu (store : Store) (st : InitSt) (r : Nat)
    (h0 : st.err = none) (hd : DenseAt store r) (hc : gpuIdOf store r = none) :
    initStep store st r = { st with indices := st.indices ++ [none] } := by
  unfold initStep
  rw [h0]
  simp only [Option.isSome_none, Bool.false_eq_true, if_false]
  rw [if_neg (show ¬ (valueAt store r).view.storageFormat ≠ StorageFormat.Dense
    from fun hcc => hcc hd), gpuIdOf_none_device store r hc]

theorem initStep_gpu_fresh (store : Store) (st : InitSt) (r id : Nat)
    (h0 : st.err = none) (hd : DenseAt store r) (hg : gpuIdOf store r = some id)
    (hl : st.lastGpu = none) :
    initStep store st r
      = initGpuUpdate { st with lastGpu := some id } id
          (GetBufferSize (valueAt store r).view) := by
  unfold initStep
  rw [h0]
  simp only [Option.isSome_none, Bool.false_eq_true, if_false]
  rw [if_neg (show ¬ (valueAt store r).view.storageFormat ≠ StorageFormat.Dense
    from fun hcc => hcc hd), gpuIdOf_some_device store r id hg, hl]

theorem initStep_gpu_same (store : Store) (st : InitSt) (r id : Nat)
    (h0 : st.err = none) (hd : DenseAt store r) (hg : gpuIdOf store r = some id)
    (hl : st.lastGpu = some id) :
    initStep store st r = initGpuUpdate st id (GetBufferSize (valueAt store r).view) := by
  unfold initStep
  rw [h0]
  simp only [Option.isSome_none, Bool.false_eq_true, if_false]
  rw [if_neg (show ¬ (valueAt store r).view.storageFormat ≠ StorageFormat.Dense
    from fun hcc => hcc hd), gpuIdOf_some_device store r id hg, hl]
  simp

theorem initStep_gpu_clash (store : Store) (st : InitSt) (r id last : Nat)
    (h0 : st.err = none) (hd : DenseAt store r) (hg : gpuIdOf store r = some id)
    (hl : st.lastGpu = some last) (hne : id ≠ last) :
    initStep store st r = { st with err := some (RunError.logicError
      "Not all values share the same GPU device id") } := by
  unfold initStep
  rw [h0]
  simp only [Option.isSome_none, Bool.false_eq_true, if_false]
  rw [if_neg (show ¬ (valueAt store r).view.storageFormat ≠ StorageFormat.Dense
    from fun hcc => hcc hd), gpuIdOf_some_device store r id hg, hl]
  simp [hne]

theorem initGpuUpdate_noerr (st : InitSt) (id required : Nat) (h0 : st.err = none) :
    (initGpuUpdate st id required).err = none := by
  rw [initGpuUpdate_err]; exact h0

theorem initGpuUpdate_lastGpu (st : InitSt) (id required : Nat) :
    (initGpuUpdate st id required).lastGpu = st.lastGpu := rfl

theorem initGpuUpdate_indices (st : InitSt) (id required : Nat) :
    (initGpuUpdate st id required).indices = st.indices ++ [some st.numGPU] := rfl

/-- With a sparse value among the referenced ones and no clash of GPU ids
before it, `Initialize`'s loop raises the sparse `RuntimeError`. -/
theorem initLoop_err_of_sparse (store : Store) : ∀ (l : List Nat) (st : InitSt),
    st.err = none →
    UniformGpu store l →
    LastCompat store l st.lastGpu →
    (∃ r ∈ l, ¬ DenseAt store r) →
    (initLoop store l st).err = some (RunError.runtimeError
      "Aggregation for sparse matrices is currently not supported!") := by
  intro l
  induction l with
  | nil => rintro st _ _ _ ⟨r, hr, _⟩; cases hr
  | cons a rest ih =>
    intro st h0 huni hlast hex
    by_cases hda : DenseAt store a
    · have hrest : ∃ r ∈ rest, ¬ DenseAt store r := by
        obtain ⟨r, hr, hrd⟩ := hex
        rcases List.mem_cons.mp hr with rfl | hr'
        · exact absurd hda hrd
        · exact ⟨r, hr', hrd⟩
      have huni' : UniformGpu store rest :=
        fun r1 h1 r2 h2 => huni r1 (List.mem_cons_of_mem _ h1) r2 (List.mem_cons_of_mem _ h2)
      cases hga : gpuIdOf store a with
      | none =>
        rw [initLoop, initStep_cpu store st a h0 hda hga]
        exact ih { st with indices := st.indices ++ [none] } h0 huni'
          (fun r hr id hid => hlast r (List.mem_cons_of_mem _ hr) id hid) hrest
      | some id =>
        rcases hlast a (List.mem_cons_self a rest) id hga with hl | hl
        · rw [initLoop, initStep_gpu_fresh store st a id h0 hda hga hl]
          apply ih (initGpuUpdate { st with lastGpu := some id } id
              (GetBufferSize (valueAt store a).view))
            (initGpuUpdate_noerr _ _ _ h0) huni'
          · intro r hr id2 hid2
            right
            rw [initGpuUpdate_lastGpu]
            rcases huni a (List.mem_cons_self a rest) r (List.mem_cons_of_mem _ hr) with hc | hc | hc
            · rw [hga] at hc; cases hc
            · rw [hid2] at hc; cases hc
            · rw [hga, hid2] at hc; cases hc; rfl
          · exact hrest
        · rw [initLoop, initStep_gpu_same store st a id h0 hda hga hl]
          apply ih (initGpuUpdate st id (GetBufferSize (valueAt store a).view))
            (initGpuUpdate_noerr _ _ _ h0) huni'
          · intro r hr id2 hid2
            right
            rw [initGpuUpdate_lastGpu, hl]
            rcases huni a (List.mem_cons_self a rest) r (List.mem_cons_of_mem _ hr) with hc | hc | hc
            · rw [hga] at hc; cases hc
            · rw [hid2] at hc; cases hc
            · rw [hga, hid2] at hc; cases hc; rfl
          · exact hrest
    · rw [initLoop, initStep_sparse store st a h0 hda]
      rw [initLoop_frozen store rest ({ st with err := some (RunError.runtimeError
        "Aggregation for sparse matrices is currently not supported!") }) rfl]

/-- With every referenced value dense and two distinct GPU ids among them
(or one clashing with the committed `lastGpuDevice`), `Initialize`'s loop
raises the device-clash `LogicError`. -/
theorem initLoop_err_of_mixed (store : Store) : ∀ (l : List Nat) (st : InitSt),
    st.err = none →
    (∀ r ∈ l, DenseAt store r) →
    ((∃ last, st.lastGpu = some last ∧ ∃ r ∈ l, ∃ id, gpuIdOf store r = some id ∧ id ≠ last) ∨
     (st.lastGpu = none ∧ ∃ r1 ∈ l, ∃ r2 ∈ l, ∃ id1 id2,
        gpuIdOf store r1 = some id1 ∧ gpuIdOf store r2 = some id2 ∧ id1 ≠ id2)) →
    (initLoop store l st).err = some (RunError.logicError
      "Not all values share the same GPU device id") := by
  intro l
  induction l with
  | nil =>
    rintro st _ _ (⟨last, _, r, hr, _⟩ | ⟨_, r1, hr1, _⟩)
    · cases hr
    · cases hr1
  | cons a rest ih =>
    intro st h0 hd hmix
    have hda : DenseAt store a := hd a (List.mem_cons_self a rest)
    have hdrest : ∀ r ∈ rest, DenseAt store r :=
      fun r hr => hd r (List.mem_cons_of_mem _ hr)
    cases hga : gpuIdOf store a with
    | none =>
      rw [initLoop, initStep_cpu store st a h0 hda hga]
      apply ih { st with indices := st.indices ++ [none] } h0 hdrest
      rcases hmix with ⟨last, hl, r, hr, id, hid, hne⟩ | ⟨hl, r1, hr1, r2, hr2, id1, id2, hid1, hid2, hne⟩
      · left
        refine ⟨last, hl, r, ?_, id, hid, hne⟩
        rcases List.mem_cons.mp hr with rfl | hr'
        · rw [hga] at hid; cases hid
        · exact hr'
      · right
        refine ⟨hl, r1, ?_, r2, ?_, id1, id2, hid1, hid2, hne⟩
        · rcases List.mem_cons.mp hr1 with rfl | hr'
          · rw [hga] at hid1; cases hid1
          · exact hr'
        · rcases List.mem_cons.mp hr2 with rfl | hr'
          · rw [hga] at hid2; cases hid2
          · exact hr'
    | some id =>
      rcases hmix with ⟨last, hl, r, hr, id2, hid2, hne⟩ | ⟨hl, r1, hr1, r2, hr2, id1, id2, hid1, hid2, hne⟩
      · by_cases heq : id = last
        · subst heq
          rw [initLoop, initStep_gpu_same store st a id h0 hda hga hl]
          apply ih (initGpuUpdate st id (GetBufferSize (valueAt store a).view))
            (initGpuUpdate_noerr _ _ _ h0) hdrest
          left
          refine ⟨id, by rw [initGpuUpdate_lastGpu]; exact hl, r, ?_, id2, hid2, hne⟩
          rcases List.mem_cons.mp hr with rfl | hr'
          · rw [hga] at hid2; cases hid2; exact absurd rfl hne
          · exact hr'
        · rw [initLoop, initStep_gpu_clash store st a id last h0 hda hga hl heq]
          rw [initLoop_frozen store rest ({ st with err := some (RunError.logicError
            "Not all values share the same GPU device id") }) rfl]
      · -- lastGpu was none: the head commits it to `id`
        rw [initLoop, initStep_gpu_fresh store st a id h0 hda hga hl]
        apply ih (initGpuUpdate { st with lastGpu := some id } id
            (GetBufferSize (valueAt store a).view))
          (initGpuUpdate_noerr _ _ _ h0) hdrest
        left
        refine ⟨id, by rw [initGpuUpdate_lastGpu], ?_⟩
        -- one of r1, r2 has an id different from id
        by_cases h1 : id1 = id
        · subst h1
          refine ⟨r2, ?_, id2, hid2, fun hc => hne hc.symm⟩
          rcases List.mem_cons.mp hr2 with rfl | hr'
          · rw [hga] at hid2; cases hid2; exact absurd rfl hne
          · exact hr'
        · refine ⟨r1, ?_, id1, hid1, h1⟩
          rcases List.mem_cons.mp hr1 with rfl | hr'
          · rw [hga] at hid1; cases hid1; exact absurd rfl h1
          · exact hr'

/-! ### Full characterization of the allocation loop and of early-error
`AggregateImpl` runs. -/

theorem map_congr_mem {α β : Type} (l : List α) (f g : α → β)
    (h : ∀ a ∈ l, f a = g a) : l.map f = l.map g := by
  induction l with
  | nil => rfl
  | cons a rest ih =>
    simp only [List.map]
    rw [h a (List.mem_cons_self a rest), ih (fun x hx => h x (List.mem_cons_of_mem _ hx))]

theorem range'_cons (s n : Nat) : List.range' s (n + 1) = s :: List.range' (s + 1) n := rfl

theorem allocLoop_ok_spec (l : List Nat) : ∀ st : AllocSt, st.err = none →
    (∀ r ∈ l, r < st.store.length) →
    (∀ r ∈ l, (valueAt st.store r).mask ≠ none) →
    (allocLoop l st).err = none ∧
    (allocLoop l st).store
      = st.store ++ l.map (fun r => (freshOutput (valueAt st.store r)).getD default) ∧
    (allocLoop l st).outputs = st.outputs ++ List.range' st.store.length l.length := by
  induction l with
  | nil => intro st h0 _ _; exact ⟨h0, by simp [allocLoop], by simp [allocLoop, List.range']⟩
  | cons a rest ih =>
    intro st h0 hv hm
    obtain ⟨m, hm'⟩ := Option.ne_none_iff_exists'.mp (hm a (List.mem_cons_self a rest))
    have hstep : allocStep st a =
        { st with store := st.store ++ [(freshOutput (valueAt st.store a)).getD default],
                  outputs := st.outputs ++ [st.store.length] } := by
      unfold allocStep
      simp [h0, freshOutput, hm']
    rw [allocLoop, hstep]
    obtain ⟨he, hs, ho⟩ := ih
      { st with store := st.store ++ [(freshOutput (valueAt st.store a)).getD default],
                outputs := st.outputs ++ [st.store.length] }
      h0
      (by
        intro r' hr'
        simp only [List.length_append, List.length_cons, List.length_nil]
        exact Nat.lt_succ_of_lt (hv r' (List.mem_cons_of_mem _ hr')))
      (by
        intro r' hr'
        have hlt : r' < st.store.length := hv r' (List.mem_cons_of_mem _ hr')
        rw [valueAt_append_lt _ _ _ hlt]
        exact hm r' (List.mem_cons_of_mem _ hr'))
    refine ⟨he, ?_, ?_⟩
    · rw [hs]
      have hmap : rest.map (fun r =>
            (freshOutput (valueAt (st.store ++
              [(freshOutput (valueAt st.store a)).getD default]) r)).getD default)
          = rest.map (fun r => (freshOutput (valueAt st.store r)).getD default) := by
        apply map_congr_mem
        intro r' hr'
        rw [valueAt_append_lt _ _ _ (hv r' (List.mem_cons_of_mem _ hr'))]
      rw [hmap]
      simp [List.append_assoc]
    · rw [ho]
      simp only [List.length_append, List.length_cons, List.length_nil, List.length_map,
        List.map, List.append_assoc]
      rw [range'_cons]
      simp

theorem aggregateImpl_init_error (env : MPIEnv) (comm : CommState) (store : Store)
    (inputValues outputValues : List Nat) (sendToWorkers : List WorkerDesc)
    (schedule : List (Option Nat)) (e : RunError)
    (hn : env.numNodes ≠ 1) (hlen : inputValues.length = outputValues.length)
    (hne : inputValues.length ≠ 0)
    (herr : (Initialize comm store inputValues).err = some e) :
    AggregateImpl env comm store inputValues outputValues sendToWorkers schedule
      = { comm := (Initialize comm store inputValues).comm, store := store,
          trace := [], err := some e } := by
  simp only [AggregateImpl]
  rw [if_neg hn, if_neg (by omega), if_neg hne]
  have hsome : (St.mk (Initialize comm store inputValues).comm store []
      (Initialize comm store inputValues).err).err.isSome = true := by
    rw [herr]; rfl
  rw [stageLoop_frozen _ _ _ _ hsome, reduceLoop_frozen _ _ _ _ _ _ hsome,
    drainLoop_frozen _ _ _ _ _ _ hsome, finalLoop_frozen _ _ _ hsome, herr]

theorem aggregate_alloc_ok (env : MPIEnv) (comm : CommState) (store : Store)
    (values : List Nat) (sendToWorkers : List WorkerDesc) (schedule : List (Option Nat))
    (h : (allocLoop values { store := store, outputs := [], err := none }).err = none) :
    Aggregate env comm store values sendToWorkers schedule
      = { st := AggregateImpl env comm
            (allocLoop values { store := store, outputs := [], err := none }).store
            values
            (allocLoop values { store := store, outputs := [], err := none }).outputs
            sendToWorkers schedule,
          outputs := (allocLoop values { store := store, outputs := [], err := none }).outputs } := by
  simp only [Aggregate, h]

/-! ### The multi-worker validation failures. -/

theorem Initialize_err_of_sparse (comm : CommState) (store : Store) (values : List Nat)
    (hg : UniformGpu store values) (hs : ∃ r ∈ values, ¬ DenseAt store r) :
    (Initialize comm store values).err = some (RunError.runtimeError
      "Aggregation for sparse matrices is currently not supported!") :=
  initLoop_err_of_sparse store values
    { comm := comm, indices := [], numGPU := 0, lastGpu := none, err := none }
    rfl hg (fun _ _ _ _ => Or.inl rfl) hs

theorem Initialize_err_of_mixed (comm : CommState) (store : Store) (values : List Nat)
    (hd : ∀ r ∈ values, DenseAt store r)
    (hmix : ∃ r1 ∈ values, ∃ r2 ∈ values, ∃ id1 id2,
      gpuIdOf store r1 = some id1 ∧ gpuIdOf store r2 = some id2 ∧ id1 ≠ id2) :
    (Initialize comm store values).err = some (RunError.logicError
      "Not all values share the same GPU device id") :=
  initLoop_err_of_mixed store values
    { comm := comm, indices := [], numGPU := 0, lastGpu := none, err := none }
    rfl hd (Or.inr ⟨rfl, hmix⟩)

/-! ### Loop decomposition, metadata preservation and exact traces. -/

theorem stageLoop_append (gIdx : List (Option Nat)) (ins : List Nat)
    (l1 l2 : List Nat) (s : St) :
    stageLoop gIdx ins (l1 ++ l2) s = stageLoop gIdx ins l2 (stageLoop gIdx ins l1 s) := by
  induction l1 generalizing s with
  | nil => rfl
  | cons i rest ih => simp [stageLoop, ih]

theorem reduceLoop_append (env : MPIEnv) (gIdx : List (Option Nat))
    (ins outs : List Nat) (l1 l2 : List Nat) (s : St) :
    reduceLoop env gIdx ins outs (l1 ++ l2) s
      = reduceLoop env gIdx ins outs l2 (reduceLoop env gIdx ins outs l1 s) := by
  induction l1 generalizing s with
  | nil => rfl
  | cons i rest ih => simp [reduceLoop, ih]

theorem range'_split (m : Nat) : ∀ (s k : Nat),
    List.range' s (m + k) = List.range' s m ++ List.range' (s + m) k := by
  induction m with
  | zero => intro s k; simp
  | succ m ih =>
    intro s k
    have h1 : m + 1 + k = (m + k) + 1 := by omega
    rw [h1, range'_cons, ih (s + 1) k, range'_cons]
    rw [show s + 1 + m = s + (m + 1) from by omega]
    simp [List.cons_append]

theorem range_split (m n : Nat) (h : m < n) :
    List.range n = List.range m ++ m :: List.range' (m + 1) (n - (m + 1)) := by
  rw [List.range_eq_range', List.range_eq_range']
  have e0 : m + (n - m) = n := by omega
  have e1 : List.range' 0 n = List.range' 0 m ++ List.range' m (n - m) := by
    calc List.range' 0 n = List.range' 0 (m + (n - m)) := by rw [e0]
      _ = List.range' 0 m ++ List.range' (0 + m) (n - m) := range'_split m 0 (n - m)
      _ = List.range' 0 m ++ List.range' m (n - m) := by rw [Nat.zero_add]
  have e2 : List.range' m (n - m) = m :: List.range' (m + 1) (n - (m + 1)) := by
    rw [show n - m = (n - (m + 1)) + 1 from by omega, range'_cons]
  rw [e1, e2]

theorem valueMeta_dataType {v w : Value} (h : valueMeta v = valueMeta w) :
    v.view.dataType = w.view.dataType := congrArg (fun m => m.1.1) h

theorem valueMeta_shape {v w : Value} (h : valueMeta v = valueMeta w) :
    v.view.shape = w.view.shape := congrArg (fun m => m.1.2.1) h

theorem valueMeta_device {v w : Value} (h : valueMeta v = valueMeta w) :
    v.view.device = w.view.device := congrArg (fun m => m.1.2.2.1) h

theorem valueMeta_storage {v w : Value} (h : valueMeta v = valueMeta w) :
    v.view.storageFormat = w.view.storageFormat := congrArg (fun m => m.1.2.2.2) h

theorem valueMeta_mask {v w : Value} (h : valueMeta v = valueMeta w) :
    v.mask = w.mask := congrArg (fun m => m.2) h

theorem setViewData_meta (store : Store) (r : Nat) (d : Option (List Int)) (r' : Nat) :
    valueMeta (valueAt (setViewData store r d) r') = valueMeta (valueAt store r') := by
  unfold setViewData
  by_cases hrr : r = r'
  · subst hrr
    by_cases hlt : r < store.length
    · rw [valueAt_set_self _ _ _ hlt]
      rfl
    · rw [set_ge_length _ _ _ (by omega)]
  · rw [valueAt_set_ne _ _ _ _ hrr]

theorem PairMatched_of_meta (s1 s2 : Store) (ins outs : List Nat) (j : Nat)
    (hmeta : ∀ r, valueMeta (valueAt s2 r) = valueMeta (valueAt s1 r))
    (h : PairMatched s1 ins outs j) : PairMatched s2 ins outs j := by
  obtain ⟨h1, h2, h3⟩ := h
  have hin := hmeta (ins.getD j 0)
  have hout := hmeta (outs.getD j 0)
  refine ⟨?_, ?_, ?_⟩
  · unfold NDArrayView.totalSize
    rw [valueMeta_shape hin, valueMeta_shape hout]
    exact h1
  · rw [valueMeta_dataType hin, valueMeta_dataType hout]
    exact h2
  · rw [valueMeta_device hin, valueMeta_device hout]
    exact h3

theorem gpuTag_true (gIdx : List (Option Nat)) (i g : Nat)
    (hgi : gIdx.getD i none = some g) : gpuTag gIdx i = true := by
  unfold gpuTag; rw [hgi]; rfl

theorem gpuTag_false (gIdx : List (Option Nat)) (i : Nat)
    (hgi : gIdx.getD i none = none) : gpuTag gIdx i = false := by
  unfold gpuTag; rw [hgi]; rfl

theorem stageStep_exact (gIdx : List (Option Nat)) (ins : List Nat) (i : Nat)
    (s : St) (h0 : s.err = none) :
    (stageStep gIdx ins i s).err = none ∧
    (stageStep gIdx ins i s).store = s.store ∧
    (stageStep gIdx ins i s).trace
      = s.trace ++ (if gpuTag gIdx i then [Event.copyGPUToCPUAsync i] else []) := by
  unfold stageStep
  rw [h0]
  simp only [Option.isSome_none, Bool.false_eq_true, if_false]
  cases hgi : gIdx.getD i none with
  | none =>
    have hgf := gpuTag_false gIdx i hgi
    simp [hgi, hgf, h0]
  | some g =>
    have hgt := gpuTag_true gIdx i g hgi
    simp [hgi, hgt]

theorem stageLoop_exact (gIdx : List (Option Nat)) (ins : List Nat) :
    ∀ (is : List Nat) (s : St), s.err = none →
    (stageLoop gIdx ins is s).err = none ∧
    (stageLoop gIdx ins is s).store = s.store ∧
    (stageLoop gIdx ins is s).trace = s.trace ++ stageSeg gIdx is := by
  intro is
  induction is with
  | nil => intro s h0; exact ⟨h0, rfl, by simp [stageSeg, stageLoop]⟩
  | cons i rest ih =>
    intro s h0
    obtain ⟨he1, hs1, ht1⟩ := stageStep_exact gIdx ins i s h0
    obtain ⟨he2, hs2, ht2⟩ := ih (stageStep gIdx ins i s) he1
    simp only [stageLoop]
    refine ⟨he2, by rw [hs2, hs1], ?_⟩
    rw [ht2, ht1, stageSeg, List.append_assoc]

theorem reduceStep_ok (env : MPIEnv) (gIdx : List (Option Nat)) (ins outs : List Nat)
    (i : Nat) (s : St) (h0 : s.err = none) (hok : PairMatched s.store ins outs i) :
    (reduceStep env gIdx ins outs i s).err = none ∧
    (reduceStep env gIdx ins outs i s).trace
      = s.trace ++ ((if gpuTag gIdx i then [Event.waitGPUToCPU i] else [])
          ++ [Event.allReduceAsync i]) ∧
    (∀ r, valueMeta (valueAt (reduceStep env gIdx ins outs i s).store r)
        = valueMeta (valueAt s.store r)) := by
  obtain ⟨h1, h2, h3⟩ := hok
  unfold reduceStep
  rw [h0]
  simp only [Option.isSome_none, Bool.false_eq_true, if_false]
  cases hgi : gIdx.getD i none with
  | none =>
    have hgf := gpuTag_false gIdx i hgi
    simp only [hgi]
    rw [if_neg (show ¬ _ from fun hc => hc h1), if_neg (show ¬ _ from fun hc => hc h2),
      if_neg (show ¬ _ from fun hc => hc h3)]
    by_cases hio : ins.getD i 0 = outs.getD i 0
    · rw [if_pos hio]
      exact ⟨h0, by simp [hgf], fun r => setViewData_meta _ _ _ _⟩
    · rw [if_neg hio]
      exact ⟨h0, by simp [hgf], fun r => setViewData_meta _ _ _ _⟩
  | some g =>
    have hgt := gpuTag_true gIdx i g hgi
    simp only [hgi]
    rw [if_neg (show ¬ _ from fun hc => hc h1), if_neg (show ¬ _ from fun hc => hc h2),
      if_neg (show ¬ _ from fun hc => hc h3)]
    exact ⟨rfl, by simp [hgt], fun r => rfl⟩

theorem reduceStep_fail (env : MPIEnv) (gIdx : List (Option Nat)) (ins outs : List Nat)
    (m : Nat) (s : St) (h0 : s.err = none)
    (hbad : ¬ PairMatched s.store ins outs m) :
    (∃ msg, (reduceStep env gIdx ins outs m s).err = some (RunError.assertFailed msg)) ∧
    (reduceStep env gIdx ins outs m s).trace
      = s.trace ++ (if gpuTag gIdx m then [Event.waitGPUToCPU m] else []) ∧
    (reduceStep env gIdx ins outs m s).store = s.store := by
  unfold reduceStep
  rw [h0]
  simp only [Option.isSome_none, Bool.false_eq_true, if_false]
  cases hgi : gIdx.getD m none with
  | none =>
    have hgf := gpuTag_false gIdx m hgi
    simp only [hgi]
    by_cases hA : (valueAt s.store (ins.getD m 0)).view.totalSize
        ≠ (valueAt s.store (outs.getD m 0)).view.totalSize
    · rw [if_pos hA]
      exact ⟨⟨_, rfl⟩, by simp [hgf], rfl⟩
    · rw [if_neg hA]
      by_cases hB : (valueAt s.store (ins.getD m 0)).view.dataType
          ≠ (valueAt s.store (outs.getD m 0)).view.dataType
      · rw [if_pos hB]
        exact ⟨⟨_, rfl⟩, by simp [hgf], rfl⟩
      · rw [if_neg hB]
        by_cases hC : (valueAt s.store (ins.getD m 0)).view.device
            ≠ (valueAt s.store (outs.getD m 0)).view.device
        · rw [if_pos hC]
          exact ⟨⟨_, rfl⟩, by simp [hgf], rfl⟩
        · exact absurd ⟨not_not.mp hA, not_not.mp hB, not_not.mp hC⟩ hbad
  | some g =>
    have hgt := gpuTag_true gIdx m g hgi
    simp only [hgi]
    by_cases hA : (valueAt s.store (ins.getD m 0)).view.totalSize
        ≠ (valueAt s.store (outs.getD m 0)).view.totalSize
    · rw [if_pos hA]
      exact ⟨⟨_, rfl⟩, by simp [hgt], rfl⟩
    · rw [if_neg hA]
      by_cases hB : (valueAt s.store (ins.getD m 0)).view.dataType
          ≠ (valueAt s.store (outs.getD m 0)).view.dataType
      · rw [if_pos hB]
        exact ⟨⟨_, rfl⟩, by simp [hgt], rfl⟩
      · rw [if_neg hB]
        by_cases hC : (valueAt s.store (ins.getD m 0)).view.device
            ≠ (valueAt s.store (outs.getD m 0)).view.device
        · rw [if_pos hC]
          exact ⟨⟨_, rfl⟩, by simp [hgt], rfl⟩
        · exact absurd ⟨not_not.mp hA, not_not.mp hB, not_not.mp hC⟩ hbad

theorem reduceLoop_ok (env : MPIEnv) (gIdx : List (Option Nat)) (ins outs : List Nat) :
    ∀ (is : List Nat) (s : St), s.err = none →
    (∀ j ∈ is, PairMatched s.store ins outs j) →
    (reduceLoop env gIdx ins outs is s).err = none ∧
    (reduceLoop env gIdx ins outs is s).trace = s.trace ++ reduceSeg gIdx is ∧
    (∀ r, valueMeta (valueAt (reduceLoop env gIdx ins outs is s).store r)
        = valueMeta (valueAt s.store r)) := by
  intro is
  induction is with
  | nil => intro s h0 _; exact ⟨h0, by simp [reduceSeg, reduceLoop], fun r => rfl⟩
  | cons i rest ih =>
    intro s h0 hm
    obtain ⟨he1, ht1, hmeta1⟩ := reduceStep_ok env gIdx ins outs i s h0
      (hm i (List.mem_cons_self i rest))
    obtain ⟨he2, ht2, hmeta2⟩ := ih (reduceStep env gIdx ins outs i s) he1
      (fun j hj => PairMatched_of_meta _ _ _ _ _ hmeta1 (hm j (List.mem_cons_of_mem _ hj)))
    simp only [reduceLoop]
    refine ⟨he2, ?_, fun r => (hmeta2 r).trans (hmeta1 r)⟩
    rw [ht2, ht1, reduceSeg, List.append_assoc]

theorem drainStep_exact (gIdx : List (Option Nat)) (outs : List Nat) (idx : Nat)
    (s : St) :
    (drainStep gIdx outs idx s).err = s.err ∧
    (drainStep gIdx outs idx s).trace
      = s.trace ++ (Event.waitAnyReturned idx ::
          (if gpuTag gIdx idx then [Event.copyCPUToGPUAsync idx] else [])) ∧
    (∀ r, valueMeta (valueAt (drainStep gIdx outs idx s).store r)
        = valueMeta (valueAt s.store r)) := by
  unfold drainStep
  cases hgi : gIdx.getD idx none with
  | none =>
    have hgf := gpuTag_false gIdx idx hgi
    exact ⟨rfl, by simp [hgf], fun r => rfl⟩
  | some g =>
    have hgt := gpuTag_true gIdx idx g hgi
    exact ⟨rfl, by simp [hgt], fun r => setViewData_meta _ _ _ _⟩

theorem drainLoop_exact (gIdx : List (Option Nat)) (outs : List Nat) (n : Nat) :
    ∀ (sched : List (Option Nat)) (completed : Nat) (s : St), s.err = none →
    (drainLoop gIdx outs n sched completed s).err = none ∧
    (drainLoop gIdx outs n sched completed s).trace
      = s.trace ++ drainSeg gIdx n sched completed ∧
    (∀ r, valueMeta (valueAt (drainLoop gIdx outs n sched completed s).store r)
        = valueMeta (valueAt s.store r)) := by
  intro sched
  induction sched with
  | nil => intro completed s h0; exact ⟨h0, by simp [drainSeg, drainLoop], fun r => rfl⟩
  | cons e rest ih =>
    intro completed s h0
    unfold drainLoop drainSeg
    rw [h0]
    simp only [Option.isSome_none, Bool.false_eq_true, if_false]
    by_cases hc : n ≤ completed
    · rw [if_pos hc, if_pos hc]
      exact ⟨h0, by simp, fun r => rfl⟩
    · rw [if_neg hc, if_neg hc]
      cases e with
      | none => exact ⟨h0, by simp, fun r => rfl⟩
      | some idx =>
        obtain ⟨he1, ht1, hmeta1⟩ := drainStep_exact gIdx outs idx s
        obtain ⟨he2, ht2, hmeta2⟩ := ih (completed + 1) (drainStep gIdx outs idx s)
          (by rw [he1]; exact h0)
        refine ⟨he2, ?_, fun r => (hmeta2 r).trans (hmeta1 r)⟩
        rw [ht2, ht1, List.append_assoc]

theorem finalStep_exact (gIdx : List (Option Nat)) (i : Nat) (s : St)
    (h0 : s.err = none) :
    (finalStep gIdx i s).err = none ∧
    (finalStep gIdx i s).store = s.store ∧
    (finalStep gIdx i s).trace
      = s.trace ++ (if gpuTag gIdx i then [Event.waitCPUToGPU i] else []) := by
  unfold finalStep
  rw [h0]
  simp only [Option.isSome_none, Bool.false_eq_true, if_false]
  cases hgi : gIdx.getD i none with
  | none =>
    have hgf := gpuTag_false gIdx i hgi
    exact ⟨h0, rfl, by simp [hgf]⟩
  | some g =>
    have hgt := gpuTag_true gIdx i g hgi
    exact ⟨rfl, rfl, by simp [hgt]⟩

theorem finalLoop_exact (gIdx : List (Option Nat)) :
    ∀ (is : List Nat) (s : St), s.err = none →
    (finalLoop gIdx is s).err = none ∧
    (finalLoop gIdx is s).store = s.store ∧
    (finalLoop gIdx is s).trace = s.trace ++ finalSeg gIdx is := by
  intro is
  induction is with
  | nil => intro s h0; exact ⟨h0, rfl, by simp [finalSeg, finalLoop]⟩
  | cons i rest ih =>
    intro s h0
    obtain ⟨he1, hs1, ht1⟩ := finalStep_exact gIdx i s h0
    obtain ⟨he2, hs2, ht2⟩ := ih (finalStep gIdx i s) he1
    simp only [finalLoop]
    refine ⟨he2, by rw [hs2, hs1], ?_⟩
    rw [ht2, ht1, finalSeg, List.append_assoc]

/-- `Initialize` on dense inputs with at most one GPU id succeeds and
assigns a device slot exactly to the GPU-resident inputs, in order. -/
theorem initLoop_ok (store : Store) : ∀ (l : List Nat) (st : InitSt), st.err = none →
    (∀ r ∈ l, DenseAt store r) →
    UniformGpu store l →
    LastCompat store l st.lastGpu →
    (initLoop store l st).err = none ∧
    (initLoop store l st).indices.length = st.indices.length + l.length ∧
    (∀ k, k < st.indices.length →
      (initLoop store l st).indices.getD k none = st.indices.getD k none) ∧
    (∀ k, k < l.length →
      ((initLoop store l st).indices.getD (st.indices.length + k) none).isSome
        = (gpuIdOf store (l.getD k 0)).isSome) := by
  intro l
  induction l with
  | nil =>
    intro st h0 _ _ _
    exact ⟨h0, by simp [initLoop], fun k _ => rfl, fun k hk => absurd hk (by simp)⟩
  | cons a rest ih =>
    intro st h0 hd huni hlast
    have hda : DenseAt store a := hd a (List.mem_cons_self a rest)
    have hdrest : ∀ r ∈ rest, DenseAt store r := fun r hr => hd r (List.mem_cons_of_mem _ hr)
    have huni' : UniformGpu store rest :=
      fun r1 h1 r2 h2 => huni r1 (List.mem_cons_of_mem _ h1) r2 (List.mem_cons_of_mem _ h2)
    -- the step, by cases on the device of `a`
    have hstep : ∃ x : Option Nat, x.isSome = (gpuIdOf store a).isSome ∧
        (initStep store st a).err = none ∧
        (initStep store st a).indices = st.indices ++ [x] ∧
        LastCompat store rest (initStep store st a).lastGpu := by
      cases hga : gpuIdOf store a with
      | none =>
        refine ⟨none, rfl, ?_⟩
        rw [initStep_cpu store st a h0 hda hga]
        refine ⟨h0, rfl, ?_⟩
        intro r hr id hid
        exact hlast r (List.mem_cons_of_mem _ hr) id hid
      | some id =>
        rcases hlast a (List.mem_cons_self a rest) id hga with hl | hl
        · refine ⟨some st.numGPU, rfl, ?_⟩
          rw [initStep_gpu_fresh store st a id h0 hda hga hl]
          refine ⟨h0, initGpuUpdate_indices _ _ _, ?_⟩
          intro r hr id2 hid2
          right
          rw [initGpuUpdate_lastGpu]
          rcases huni a (List.mem_cons_self a rest) r (List.mem_cons_of_mem _ hr)
            with hc | hc | hc
          · rw [hga] at hc; cases hc
          · rw [hid2] at hc; cases hc
          · rw [hga, hid2] at hc; cases hc; rfl
        · refine ⟨some st.numGPU, rfl, ?_⟩
          rw [initStep_gpu_same store st a id h0 hda hga hl]
          refine ⟨h0, initGpuUpdate_indices _ _ _, ?_⟩
          intro r hr id2 hid2
          right
          rw [initGpuUpdate_lastGpu, hl]
          rcases huni a (List.mem_cons_self a rest) r (List.mem_cons_of_mem _ hr)
            with hc | hc | hc
          · rw [hga] at hc; cases hc
          · rw [hid2] at hc; cases hc
          · rw [hga, hid2] at hc; cases hc; rfl
    obtain ⟨x, hx, he1, hidx1, hlast1⟩ := hstep
    obtain ⟨he2, hlen2, hpre2, hcorr2⟩ := ih (initStep store st a) he1 hdrest huni' hlast1
    rw [initLoop]
    have hlen1 : (initStep store st a).indices.length = st.indices.length + 1 := by
      rw [hidx1]; simp
    refine ⟨he2, ?_, ?_, ?_⟩
    · rw [hlen2, hlen1]; simp; omega
    · intro k hk
      rw [hpre2 k (by omega), hidx1, getD_append_lt _ _ _ _ hk]
    · intro k hk
      cases k with
      | zero =>
        have := hpre2 st.indices.length (by omega)
        rw [hidx1] at this
        rw [Nat.add_zero, this, getD_append_ge _ _ _ _ (Nat.le_refl _), Nat.sub_self]
        simpa using hx
      | succ k =>
        have := hcorr2 k (by simpa using Nat.lt_of_succ_lt_succ hk)
        rw [hlen1] at this
        rw [show st.indices.length + (k + 1) = st.indices.length + 1 + k from by omega]
        rw [this]
        rfl

/-- A fully valid multi-worker `AggregateImpl` run: no error, the exact
event trace (stage-in, reduce, drain, final barrier), metadata of every
stored value untouched, and the device-slot mapping mirrors GPU
residence. -/
theorem aggregateImpl_valid_run (env : MPIEnv) (comm : CommState) (store : Store)
    (ins outs : List Nat) (sendTo : List WorkerDesc) (sched : List (Option Nat))
    (hn : env.numNodes ≠ 1) (hlen : ins.length = outs.length) (hne : ins.length ≠ 0)
    (hd : ∀ r ∈ ins, DenseAt store r) (hg : UniformGpu store ins)
    (hmatch : ∀ j, j < ins.length → PairMatched store ins outs j) :
    (AggregateImpl env comm store ins outs sendTo sched).err = none ∧
    (AggregateImpl env comm store ins outs sendTo sched).trace
      = stageSeg (Initialize comm store ins).indices (List.range ins.length)
        ++ (reduceSeg (Initialize comm store ins).indices (List.range ins.length)
        ++ (drainSeg (Initialize comm store ins).indices ins.length sched 0
        ++ finalSeg (Initialize comm store ins).indices (List.range ins.length))) ∧
    (∀ r, valueMeta (valueAt (AggregateImpl env comm store ins outs sendTo sched).store r)
        = valueMeta (valueAt store r)) ∧
    (Initialize comm store ins).indices.length = ins.length ∧
    (∀ k, k < ins.length →
      gpuTag (Initialize comm store ins).indices k
        = (gpuIdOf store (ins.getD k 0)).isSome) := by
  obtain ⟨hie, hilen, -, hicorr⟩ := initLoop_ok store ins
    { comm := comm, indices := [], numGPU := 0, lastGpu := none, err := none }
    rfl hd hg (fun _ _ _ _ => Or.inl rfl)
  have hilen' : (Initialize comm store ins).indices.length = ins.length := by
    simpa using hilen
  have hicorr' : ∀ k, k < ins.length →
      gpuTag (Initialize comm store ins).indices k
        = (gpuIdOf store (ins.getD k 0)).isSome := by
    intro k hk
    have := hicorr k hk
    unfold gpuTag
    simpa using this
  simp only [AggregateImpl]
  rw [if_neg hn, if_neg (by omega), if_neg hne]
  have h0 : (St.mk (Initialize comm store ins).comm store [] (Initialize comm store ins).err).err
      = none := hie
  obtain ⟨he2, hs2, ht2⟩ := stageLoop_exact (Initialize comm store ins).indices ins
    (List.range ins.length)
    (St.mk (Initialize comm store ins).comm store [] (Initialize comm store ins).err) h0
  obtain ⟨he3, ht3, hm3⟩ := reduceLoop_ok env (Initialize comm store ins).indices ins outs
    (List.range ins.length) _ he2
    (by
      intro j hj
      rw [hs2]
      exact hmatch j (List.mem_range.mp hj))
  obtain ⟨he4, ht4, hm4⟩ := drainLoop_exact (Initialize comm store ins).indices outs
    ins.length sched 0 _ he3
  obtain ⟨he5, hs5, ht5⟩ := finalLoop_exact (Initialize comm store ins).indices
    (List.range ins.length) _ he4
  refine ⟨he5, ?_, ?_, hilen', hicorr'⟩
  · rw [ht5, ht4, ht3, ht2]
    simp [List.append_assoc]
  · intro r
    rw [hs5]
    exact ((hm4 r).trans (hm3 r)).trans (by rw [hs2])

theorem mem_stageSeg (gIdx : List (Option Nat)) (e : Event) :
    ∀ is : List Nat, e ∈ stageSeg gIdx is → ∃ j ∈ is, e = Event.copyGPUToCPUAsync j := by
  intro is
  induction is with
  | nil => intro h; cases h
  | cons i rest ih =>
    intro h
    rw [stageSeg] at h
    rcases List.mem_append.mp h with h1 | h2
    · refine ⟨i, List.mem_cons_self i rest, ?_⟩
      by_cases hg : gpuTag gIdx i
      · rw [if_pos hg] at h1
        simpa using h1
      · rw [if_neg hg] at h1
        cases h1
    · obtain ⟨j, hj, he⟩ := ih h2
      exact ⟨j, List.mem_cons_of_mem _ hj, he⟩

theorem mem_reduceSeg (gIdx : List (Option Nat)) (e : Event) :
    ∀ is : List Nat, e ∈ reduceSeg gIdx is →
      ∃ j ∈ is, e = Event.waitGPUToCPU j ∨ e = Event.allReduceAsync j := by
  intro is
  induction is with
  | nil => intro h; cases h
  | cons i rest ih =>
    intro h
    rw [reduceSeg] at h
    rcases List.mem_append.mp h with h1 | h2
    · refine ⟨i, List.mem_cons_self i rest, ?_⟩
      rcases List.mem_append.mp h1 with h3 | h4
      · by_cases hg : gpuTag gIdx i
        · rw [if_pos hg] at h3
          left
          simpa using h3
        · rw [if_neg hg] at h3
          cases h3
      · right
        simpa using h4
    · obtain ⟨j, hj, he⟩ := ih h2
      exact ⟨j, List.mem_cons_of_mem _ hj, he⟩

theorem getq_append_cases {α : Type} (X Y : List α) (q : Nat) (a : α)
    (h : (X ++ Y).get? q = some a) :
    (q < X.length ∧ X.get? q = some a) ∨
    (X.length ≤ q ∧ Y.get? (q - X.length) = some a) := by
  by_cases hq : q < X.length
  · exact Or.inl ⟨hq, by rw [← getq_append_lt X Y q hq]; exact h⟩
  · exact Or.inr ⟨by omega, by rw [← getq_append_ge X Y q (by omega)]; exact h⟩

theorem mem_getq {α : Type} {l : List α} {a : α} (h : a ∈ l) :
    ∃ q, l.get? q = some a := by
  induction l with
  | nil => cases h
  | cons b t ih =>
    rcases List.mem_cons.mp h with rfl | h'
    · exact ⟨0, rfl⟩
    · obtain ⟨q, hq⟩ := ih h'
      exact ⟨q + 1, hq⟩

theorem mem_drainSeg (gIdx : List (Option Nat)) (n : Nat) :
    ∀ (sched : List (Option Nat)) (completed : Nat) (e : Event),
    e ∈ drainSeg gIdx n sched completed →
    (∃ idx, e = Event.waitAnyReturned idx) ∨
    (∃ idx, e = Event.copyCPUToGPUAsync idx ∧ gpuTag gIdx idx = true) := by
  intro sched
  induction sched with
  | nil => intro completed e h; cases h
  | cons ev rest ih =>
    intro completed e h
    unfold drainSeg at h
    by_cases hc : n ≤ completed
    · rw [if_pos hc] at h; cases h
    · rw [if_neg hc] at h
      cases ev with
      | none => cases h
      | some idx =>
        rcases List.mem_append.mp h with h1 | h2
        · rcases List.mem_cons.mp h1 with rfl | h3
          · exact Or.inl ⟨idx, rfl⟩
          · by_cases hg : gpuTag gIdx idx
            · rw [if_pos hg] at h3
              rcases List.mem_cons.mp h3 with rfl | h4
              · exact Or.inr ⟨idx, rfl, by simpa using hg⟩
              · cases h4
            · rw [if_neg hg] at h3; cases h3
        · exact ih _ _ h2

theorem mem_finalSeg (gIdx : List (Option Nat)) (e : Event) :
    ∀ is : List Nat, e ∈ finalSeg gIdx is → ∃ j ∈ is, e = Event.waitCPUToGPU j := by
  intro is
  induction is with
  | nil => intro h; cases h
  | cons i rest ih =>
    intro h
    rw [finalSeg] at h
    rcases List.mem_append.mp h with h1 | h2
    · refine ⟨i, List.mem_cons_self i rest, ?_⟩
      by_cases hg : gpuTag gIdx i
      · rw [if_pos hg] at h1; simpa using h1
      · rw [if_neg hg] at h1; cases h1
    · obtain ⟨j, hj, he⟩ := ih h2
      exact ⟨j, List.mem_cons_of_mem _ hj, he⟩

theorem waitC2G_mem_finalSeg (gIdx : List (Option Nat)) (i : Nat) :
    ∀ is : List Nat, i ∈ is → gpuTag gIdx i = true →
    Event.waitCPUToGPU i ∈ finalSeg gIdx is := by
  intro is
  induction is with
  | nil => intro h _; cases h
  | cons j rest ih =>
    intro h hg
    rw [finalSeg]
    rcases List.mem_cons.mp h with rfl | h'
    · apply List.mem_append.mpr
      left
      rw [if_pos hg]
      exact List.mem_cons_self _ _
    · exact List.mem_append.mpr (Or.inr (ih h' hg))

theorem gpuTag_lt_length (gIdx : List (Option Nat)) (idx : Nat)
    (h : gpuTag gIdx idx = true) : idx < gIdx.length := by
  by_contra hc
  unfold gpuTag at h
  rw [getD_ge_length _ _ _ (by omega)] at h
  cases h

/-- Within the reduce segment, the all-reduce of a GPU slot is preceded by
the blocking wait on that slot's device-to-host copy. -/
theorem reduceSeg_wait_precedes (gIdx : List (Option Nat)) (i : Nat)
    (hg : gpuTag gIdx i = true) :
    ∀ (is : List Nat) (q : Nat),
    (reduceSeg gIdx is).get? q = some (Event.allReduceAsync i) →
    ∃ p, p < q ∧ (reduceSeg gIdx is).get? p = some (Event.waitGPUToCPU i) := by
  intro is
  induction is with
  | nil => intro q h; cases q <;> cases h
  | cons i0 rest ih =>
    intro q h
    rw [reduceSeg] at h
    rcases getq_append_cases _ _ _ _ h with ⟨hq, h1⟩ | ⟨hq, h2⟩
    · by_cases hg0 : gpuTag gIdx i0
      · rw [if_pos hg0] at h1 hq
        cases q with
        | zero => simp at h1
        | succ q1 =>
          cases q1 with
          | zero =>
            have hi : i0 = i := by simpa using h1
            subst hi
            refine ⟨0, by omega, ?_⟩
            rw [reduceSeg, if_pos hg0]
            rfl
          | succ q2 => simp at h1
      · rw [if_neg hg0] at h1 hq
        cases q with
        | zero =>
          have hi : i0 = i := by simpa using h1
          subst hi
          exact absurd hg hg0
        | succ q1 => simp at h1
    · obtain ⟨p', hp', hw⟩ := ih _ h2
      refine ⟨((if gpuTag gIdx i0 then [Event.waitGPUToCPU i0] else [])
        ++ [Event.allReduceAsync i0]).length + p', by omega, ?_⟩
      rw [reduceSeg, getq_append_ge _ _ _ (by omega)]
      simpa using hw

/-- Within the drain segment, the copy-back of a GPU slot immediately
follows the observation of its completion. -/
theorem drainSeg_copy_follows (gIdx : List (Option Nat)) (n idx : Nat)
    (hg : gpuTag gIdx idx = true) :
    ∀ (sched : List (Option Nat)) (completed p : Nat),
    (drainSeg gIdx n sched completed).get? p = some (Event.waitAnyReturned idx) →
    (drainSeg gIdx n sched completed).get? (p + 1)
      = some (Event.copyCPUToGPUAsync idx) := by
  intro sched
  induction sched with
  | nil => intro completed p h; cases p <;> cases h
  | cons ev rest ih =>
    intro completed p h
    unfold drainSeg at h ⊢
    by_cases hc : n ≤ completed
    · rw [if_pos hc] at h
      cases p <;> simp at h
    · rw [if_neg hc] at h ⊢
      cases ev with
      | none => cases p <;> simp at h
      | some idx0 =>
        simp only [] at h ⊢
        by_cases hg0 : gpuTag gIdx idx0
        · rw [if_pos hg0] at h ⊢
          cases p with
          | zero =>
            have hi : idx0 = idx := by simpa using h
            subst hi
            rfl
          | succ p1 =>
            cases p1 with
            | zero => simp at h
            | succ p2 => exact ih (completed + 1) p2 h
        · rw [if_neg hg0] at h ⊢
          cases p with
          | zero =>
            have hi : idx0 = idx := by simpa using h
            subst hi
            exact absurd hg hg0
          | succ p1 => exact ih (completed + 1) p1 h

theorem GpuAt_iff_isSome (store : Store) (r : Nat) :
    GpuAt store r ↔ (gpuIdOf store r).isSome = true := by
  unfold GpuAt gpuIdOf
  cases (valueAt store r).view.device <;> simp

/-- In the full trace, the all-reduce of a GPU slot is preceded by the
blocking wait on its device-to-host copy. -/
theorem fullSeg_wait_precedes (gIdx : List (Option Nat)) (n : Nat)
    (sched : List (Option Nat)) (i : Nat) (hg : gpuTag gIdx i = true) (q : Nat)
    (h : (fullSeg gIdx n sched).get? q = some (Event.allReduceAsync i)) :
    ∃ p, p < q ∧ (fullSeg gIdx n sched).get? p = some (Event.waitGPUToCPU i) := by
  unfold fullSeg at h ⊢
  rcases getq_append_cases _ _ _ _ h with ⟨hq1, h1⟩ | ⟨hq1, h1⟩
  · obtain ⟨j, -, he⟩ := mem_stageSeg _ _ _ (getq_mem h1)
    cases he
  · rcases getq_append_cases _ _ _ _ h1 with ⟨hq2, h2⟩ | ⟨hq2, h2⟩
    · obtain ⟨p2, hp2, hw⟩ := reduceSeg_wait_precedes gIdx i hg _ _ h2
      refine ⟨(stageSeg gIdx (List.range n)).length + p2, by omega, ?_⟩
      rw [getq_append_ge _ _ _ (by omega)]
      rw [show (stageSeg gIdx (List.range n)).length + p2
          - (stageSeg gIdx (List.range n)).length = p2 from by omega]
      rw [getq_append_lt _ _ _ (getq_lt_length hw)]
      exact hw
    · rcases List.mem_append.mp (getq_mem h2) with hm | hm
      · rcases mem_drainSeg gIdx n _ _ _ hm with ⟨idx, he⟩ | ⟨idx, he, -⟩ <;> cases he
      · obtain ⟨j, -, he⟩ := mem_finalSeg _ _ _ hm
        cases he

/-- In the full trace, the copy-back of a GPU slot is issued immediately
after its completion is observed. -/
theorem fullSeg_copy_follows (gIdx : List (Option Nat)) (n : Nat)
    (sched : List (Option Nat)) (idx : Nat) (hg : gpuTag gIdx idx = true) (p : Nat)
    (h : (fullSeg gIdx n sched).get? p = some (Event.waitAnyReturned idx)) :
    (fullSeg gIdx n sched).get? (p + 1) = some (Event.copyCPUToGPUAsync idx) := by
  unfold fullSeg at h ⊢
  rcases getq_append_cases _ _ _ _ h with ⟨hq1, h1⟩ | ⟨hq1, h1⟩
  · obtain ⟨j, -, he⟩ := mem_stageSeg _ _ _ (getq_mem h1)
    cases he
  · rcases getq_append_cases _ _ _ _ h1 with ⟨hq2, h2⟩ | ⟨hq2, h2⟩
    · obtain ⟨j, -, he⟩ := mem_reduceSeg _ _ _ (getq_mem h2)
      rcases he with he | he <;> cases he
    · rcases getq_append_cases _ _ _ _ h2 with ⟨hq3, h3⟩ | ⟨hq3, h3⟩
      · have hnext := drainSeg_copy_follows gIdx n idx hg _ _ _ h3
        rw [getq_append_ge _ _ _ (by omega)]
        rw [show p + 1 - (stageSeg gIdx (List.range n)).length
            = p - (stageSeg gIdx (List.range n)).length + 1 from by omega]
        rw [getq_append_ge _ _ _ (by omega)]
        rw [show p - (stageSeg gIdx (List.range n)).length + 1
              - (reduceSeg gIdx (List.range n)).length
            = p - (stageSeg gIdx (List.range n)).length
              - (reduceSeg gIdx (List.range n)).length + 1 from by omega]
        rw [getq_append_lt _ _ _ (getq_lt_length hnext)]
        exact hnext
      · obtain ⟨j, -, he⟩ := mem_finalSeg _ _ _ (getq_mem h3)
        cases he

/-- In the full trace, every issued copy-back is followed by the final
blocking wait on that slot's host-to-device transfer. -/
theorem fullSeg_final_wait (gIdx : List (Option Nat)) (n : Nat)
    (sched : List (Option Nat)) (idx : Nat) (hn : gIdx.length = n) (p : Nat)
    (h : (fullSeg gIdx n sched).get? p = some (Event.copyCPUToGPUAsync idx)) :
    ∃ q, p < q ∧ (fullSeg gIdx n sched).get? q = some (Event.waitCPUToGPU idx) := by
  unfold fullSeg at h ⊢
  rcases getq_append_cases _ _ _ _ h with ⟨hq1, h1⟩ | ⟨hq1, h1⟩
  · obtain ⟨j, -, he⟩ := mem_stageSeg _ _ _ (getq_mem h1)
    cases he
  · rcases getq_append_cases _ _ _ _ h1 with ⟨hq2, h2⟩ | ⟨hq2, h2⟩
    · obtain ⟨j, -, he⟩ := mem_reduceSeg _ _ _ (getq_mem h2)
      rcases he with he | he <;> cases he
    · rcases getq_append_cases _ _ _ _ h2 with ⟨hq3, h3⟩ | ⟨hq3, h3⟩
      · -- the copy-back lies in the drain segment; the wait is in the final one
        rcases mem_drainSeg gIdx n _ _ _ (getq_mem h3) with ⟨idx2, he⟩ | ⟨idx2, he, hgt⟩
        · cases he
        · cases he
          have hlt : idx < n := by
            have := gpuTag_lt_length gIdx idx hgt
            omega
          have hmem := waitC2G_mem_finalSeg gIdx idx (List.range n)
            (List.mem_range.mpr hlt) hgt
          obtain ⟨qf, hqf⟩ := mem_getq hmem
          refine ⟨(stageSeg gIdx (List.range n)).length
            + ((reduceSeg gIdx (List.range n)).length
              + ((drainSeg gIdx n sched 0).length + qf)), ?_, ?_⟩
          · have hplt : p - (stageSeg gIdx (List.range n)).length
                - (reduceSeg gIdx (List.range n)).length
                < (drainSeg gIdx n sched 0).length := getq_lt_length h3
            omega
          · rw [getq_append_ge _ _ _ (by omega)]
            rw [show (stageSeg gIdx (List.range n)).length
                + ((reduceSeg gIdx (List.range n)).length
                  + ((drainSeg gIdx n sched 0).length + qf))
                - (stageSeg gIdx (List.range n)).length
                = (reduceSeg gIdx (List.range n)).length
                  + ((drainSeg gIdx n sched 0).length + qf) from by omega]
            rw [getq_append_ge _ _ _ (by omega)]
            rw [show (reduceSeg gIdx (List.range n)).length
                + ((drainSeg gIdx n sched 0).length + qf)
                - (reduceSeg gIdx (List.range n)).length
                = (drainSeg gIdx n sched 0).length + qf from by omega]
            rw [getq_append_ge _ _ _ (by omega)]
            rw [show (drainSeg gIdx n sched 0).length + qf
                - (drainSeg gIdx n sched 0).length = qf from by omega]
            exact hqf
      · obtain ⟨j, -, he⟩ := mem_finalSeg _ _ _ (getq_mem h3)
        cases he

/-! ### Frame lemmas: which store references each phase may write. -/

theorem err_none_of_not_isSome {α : Type} {e : Option α} (h : ¬ e.isSome = true) :
    e = none := by
  cases e
  · rfl
  · exact absurd rfl h

theorem getD_mem {α : Type} (l : List α) (d : α) (i : Nat) (h : i < l.length) :
    l.getD i d ∈ l := by
  induction l generalizing i with
  | nil => cases h
  | cons a t ih =>
    cases i with
    | zero => exact List.mem_cons_self _ _
    | succ i => exact List.mem_cons_of_mem _ (ih i (Nat.lt_of_succ_lt_succ h))

theorem getD_map_lt {α β : Type} (l : List α) (f : α → β) (d : β) (d0 : α) (i : Nat)
    (h : i < l.length) : (l.map f).getD i d = f (l.getD i d0) := by
  induction l generalizing i with
  | nil => cases h
  | cons a t ih =>
    cases i with
    | zero => rfl
    | succ i => exact ih i (Nat.lt_of_succ_lt_succ h)

theorem nodup_getD_ne {α : Type} (l : List α) (d : α) :
    l.Nodup → ∀ i j, i < l.length → j < l.length → i ≠ j →
    l.getD i d ≠ l.getD j d := by
  induction l with
  | nil => intro _ i j hi; cases hi
  | cons a t ih =>
    intro hnd i j hi hj hij
    have hna : a ∉ t := (List.nodup_cons.mp hnd).1
    have hnt : t.Nodup := (List.nodup_cons.mp hnd).2
    cases i with
    | zero =>
      cases j with
      | zero => exact absurd rfl hij
      | succ j =>
        intro hc
        apply hna
        have hc' : a = t.getD j d := hc
        rw [hc']
        exact getD_mem t d j (Nat.lt_of_succ_lt_succ hj)
    | succ i =>
      cases j with
      | zero =>
        intro hc
        apply hna
        have hc' : t.getD i d = a := hc
        rw [← hc']
        exact getD_mem t d i (Nat.lt_of_succ_lt_succ hi)
      | succ j =>
        exact ih hnt i j (Nat.lt_of_succ_lt_succ hi) (Nat.lt_of_succ_lt_succ hj)
          (fun hc => hij (by rw [hc]))

theorem allocStep_store_extends (st : AllocSt) (r : Nat) :
    ∃ tail, (allocStep st r).store = st.store ++ tail := by
  unfold allocStep
  by_cases he : st.err.isSome
  · exact ⟨[], by simp [he]⟩
  · simp only [he]
    cases hf : freshOutput (valueAt st.store r) with
    | none => exact ⟨[], by simp [hf]⟩
    | some out => exact ⟨[out], by simp [hf]⟩

theorem allocLoop_store_extends (l : List Nat) : ∀ st : AllocSt,
    ∃ tail, (allocLoop l st).store = st.store ++ tail := by
  induction l with
  | nil => intro st; exact ⟨[], by simp [allocLoop]⟩
  | cons a rest ih =>
    intro st
    obtain ⟨t1, h1⟩ := allocStep_store_extends st a
    obtain ⟨t2, h2⟩ := ih (allocStep st a)
    exact ⟨t1 ++ t2, by rw [allocLoop, h2, h1, List.append_assoc]⟩

theorem allocLoop_outputs_bound (l : List Nat) : ∀ (st : AllocSt) (x : Nat),
    x ∈ (allocLoop l st).outputs → x ∈ st.outputs ∨ st.store.length ≤ x := by
  induction l with
  | nil => intro st x h; exact Or.inl h
  | cons a rest ih =>
    intro st x h
    rw [allocLoop] at h
    by_cases he : st.err.isSome
    · rw [allocStep_frozen st a he] at h
      rcases ih st x h with h1 | h1
      · exact Or.inl h1
      · exact Or.inr h1
    · have he' : st.err = none := err_none_of_not_isSome he
      cases hf : freshOutput (valueAt st.store a) with
      | none =>
        have hstep : allocStep st a = { st with err := some RunError.nullMaskDeref } := by
          unfold allocStep
          simp [he', hf]
        rw [hstep] at h
        rcases ih _ x h with h1 | h1
        · exact Or.inl h1
        · exact Or.inr h1
      | some out =>
        have hstep : allocStep st a =
            { st with store := st.store ++ [out], outputs := st.outputs ++ [st.store.length] } := by
          unfold allocStep
          simp [he', hf]
        rw [hstep] at h
        rcases ih _ x h with h1 | h1
        · rcases List.mem_append.mp h1 with h2 | h2
          · exact Or.inl h2
          · right
            have : x = st.store.length := by simpa using h2
            omega
        · right
          simp only [List.length_append, List.length_cons, List.length_nil] at h1
          omega

theorem allocLoop_outputs_len_of_ok (l : List Nat) : ∀ st : AllocSt,
    (allocLoop l st).err = none →
    (allocLoop l st).outputs.length = st.outputs.length + l.length := by
  induction l with
  | nil => intro st _; simp [allocLoop]
  | cons a rest ih =>
    intro st herr
    by_cases he : st.err.isSome
    · rw [allocLoop_frozen _ _ he] at herr
      rw [herr] at he
      simp at he
    · have he' : st.err = none := err_none_of_not_isSome he
      rw [allocLoop] at herr ⊢
      cases hf : freshOutput (valueAt st.store a) with
      | none =>
        have hstep : allocStep st a = { st with err := some RunError.nullMaskDeref } := by
          unfold allocStep
          simp [he', hf]
        rw [hstep, allocLoop_frozen _ _ (by rfl)] at herr
        cases herr
      | some out =>
        have hstep : allocStep st a =
            { st with store := st.store ++ [out], outputs := st.outputs ++ [st.store.length] } := by
          unfold allocStep
          simp [he', hf]
        rw [hstep] at herr ⊢
        rw [ih _ herr]
        simp
        omega

theorem initStep_indices_le (store : Store) (st : InitSt) (r : Nat) :
    (initStep store st r).indices.length ≤ st.indices.length + 1 := by
  simp only [initStep]
  repeat' split
  all_goals simp [initGpuUpdate]
  all_goals omega

theorem initLoop_indices_le (store : Store) : ∀ (l : List Nat) (st : InitSt),
    (initLoop store l st).indices.length ≤ st.indices.length + l.length := by
  intro l
  induction l with
  | nil => intro st; simp [initLoop]
  | cons a rest ih =>
    intro st
    rw [initLoop]
    have h1 := initStep_indices_le store st a
    have h2 := ih (initStep store st a)
    simp only [List.length_cons]
    omega

theorem stageStep_store (gIdx : List (Option Nat)) (ins : List Nat) (i : Nat)
    (s : St) : (stageStep gIdx ins i s).store = s.store := by
  cases hse : s.err with
  | some e => rw [stageStep_frozen _ _ _ _ (by rw [hse]; rfl)]
  | none => exact (stageStep_exact gIdx ins i s hse).2.1

theorem stageLoop_store (gIdx : List (Option Nat)) (ins : List Nat) :
    ∀ (is : List Nat) (s : St), (stageLoop gIdx ins is s).store = s.store := by
  intro is
  induction is with
  | nil => intro s; rfl
  | cons i rest ih =>
    intro s
    rw [stageLoop, ih, stageStep_store]

theorem finalStep_store (gIdx : List (Option Nat)) (i : Nat) (s : St) :
    (finalStep gIdx i s).store = s.store := by
  cases hse : s.err with
  | some e => rw [finalStep_frozen _ _ _ (by rw [hse]; rfl)]
  | none => exact (finalStep_exact gIdx i s hse).2.1

theorem finalLoop_store (gIdx : List (Option Nat)) :
    ∀ (is : List Nat) (s : St), (finalLoop gIdx is s).store = s.store := by
  intro is
  induction is with
  | nil => intro s; rfl
  | cons i rest ih =>
    intro s
    rw [finalLoop, ih, finalStep_store]

theorem setViewData_frame (store : Store) (w : Nat) (d : Option (List Int)) (r : Nat)
    (h : r ≠ w) : valueAt (setViewData store w d) r = valueAt store r := by
  unfold setViewData
  exact valueAt_set_ne _ _ _ _ (fun hc => h hc.symm)

theorem reduceStep_store_frame (env : MPIEnv) (gIdx : List (Option Nat))
    (ins outs : List Nat) (i : Nat) (s : St) (r : Nat) (hr : r ≠ outs.getD i 0) :
    valueAt (reduceStep env gIdx ins outs i s).store r = valueAt s.store r := by
  cases hse : s.err with
  | some e => rw [reduceStep_frozen _ _ _ _ _ _ (by rw [hse]; rfl)]
  | none =>
    unfold reduceStep
    rw [hse]
    simp only [Option.isSome_none, Bool.false_eq_true, if_false]
    cases hgi : gIdx.getD i none with
    | none =>
      simp only [hgi]
      split
      · rfl
      · split
        · rfl
        · split
          · rfl
          · split
            · exact setViewData_frame _ _ _ _ hr
            · exact setViewData_frame _ _ _ _ hr
    | some g =>
      simp only [hgi]
      split
      · rfl
      · split
        · rfl
        · split
          · rfl
          · rfl

theorem reduceLoop_store_frame (env : MPIEnv) (gIdx : List (Option Nat))
    (ins outs : List Nat) : ∀ (is : List Nat) (s : St) (r : Nat),
    (∀ i ∈ is, r ≠ outs.getD i 0) →
    valueAt (reduceLoop env gIdx ins outs is s).store r = valueAt s.store r := by
  intro is
  induction is with
  | nil => intro s r _; rfl
  | cons i rest ih =>
    intro s r hr
    rw [reduceLoop, ih _ _ (fun j hj => hr j (List.mem_cons_of_mem _ hj)),
      reduceStep_store_frame env gIdx ins outs i s r (hr i (List.mem_cons_self i rest))]

theorem drainStep_store_frame (gIdx : List (Option Nat)) (outs : List Nat)
    (idx : Nat) (s : St) (r : Nat)
    (hr : gIdx.getD idx none ≠ none → r ≠ outs.getD idx 0) :
    valueAt (drainStep gIdx outs idx s).store r = valueAt s.store r := by
  unfold drainStep
  cases hgi : gIdx.getD idx none with
  | none => rfl
  | some g =>
    exact setViewData_frame _ _ _ _ (hr (by rw [hgi]; simp))

theorem drainLoop_store_frame (gIdx : List (Option Nat)) (outs : List Nat) (n : Nat) :
    ∀ (sched : List (Option Nat)) (completed : Nat) (s : St) (r : Nat),
    (∀ idx, gIdx.getD idx none ≠ none → r ≠ outs.getD idx 0) →
    valueAt (drainLoop gIdx outs n sched completed s).store r = valueAt s.store r := by
  intro sched
  induction sched with
  | nil => intro completed s r _; rfl
  | cons e rest ih =>
    intro completed s r hr
    unfold drainLoop
    by_cases he : s.err.isSome
    · rw [if_pos he]
    · rw [if_neg he]
      by_cases hc : n ≤ completed
      · rw [if_pos hc]
      · rw [if_neg hc]
        cases e with
        | none => rfl
        | some idx =>
          rw [ih _ _ _ hr, drainStep_store_frame gIdx outs idx s r (hr idx)]

/-! ### Unconditional metadata preservation through `AggregateImpl`. -/

theorem reduceStep_meta (env : MPIEnv) (gIdx : List (Option Nat))
    (ins outs : List Nat) (i : Nat) (s : St) (r : Nat) :
    valueMeta (valueAt (reduceStep env gIdx ins outs i s).store r)
      = valueMeta (valueAt s.store r) := by
  cases hse : s.err with
  | some e => rw [reduceStep_frozen _ _ _ _ _ _ (by rw [hse]; rfl)]
  | none =>
    by_cases hok : PairMatched s.store ins outs i
    · exact (reduceStep_ok env gIdx ins outs i s hse hok).2.2 r
    · rw [(reduceStep_fail env gIdx ins outs i s hse hok).2.2]

theorem reduceLoop_meta (env : MPIEnv) (gIdx : List (Option Nat))
    (ins outs : List Nat) : ∀ (is : List Nat) (s : St) (r : Nat),
    valueMeta (valueAt (reduceLoop env gIdx ins outs is s).store r)
      = valueMeta (valueAt s.store r) := by
  intro is
  induction is with
  | nil => intro s r; rfl
  | cons i rest ih =>
    intro s r
    rw [reduceLoop]
    exact (ih _ r).trans (reduceStep_meta env gIdx ins outs i s r)

theorem drainLoop_meta (gIdx : List (Option Nat)) (outs : List Nat) (n : Nat) :
    ∀ (sched : List (Option Nat)) (completed : Nat) (s : St) (r : Nat),
    valueMeta (valueAt (drainLoop gIdx outs n sched completed s).store r)
      = valueMeta (valueAt s.store r) := by
  intro sched
  induction sched with
  | nil => intro completed s r; rfl
  | cons e rest ih =>
    intro completed s r
    unfold drainLoop
    by_cases he : s.err.isSome
    · rw [if_pos he]
    · rw [if_neg he]
      by_cases hc : n ≤ completed
      · rw [if_pos hc]
      · rw [if_neg hc]
        cases e with
        | none => rfl
        | some idx =>
          exact (ih _ _ r).trans ((drainStep_exact gIdx outs idx s).2.2 r)

theorem aggregateImpl_meta (env : MPIEnv) (comm : CommState) (store : Store)
    (ins outs : List Nat) (sendTo : List WorkerDesc) (sched : List (Option Nat))
    (r : Nat) :
    valueMeta (valueAt (AggregateImpl env comm store ins outs sendTo sched).store r)
      = valueMeta (valueAt store r) := by
  simp only [AggregateImpl]
  split
  · rfl
  · split
    · rfl
    · split
      · rfl
      · rw [finalLoop_store, drainLoop_meta, reduceLoop_meta, stageLoop_store]

/-! ### The in-place all-CPU reduce path and the all-CPU `Initialize`. -/

theorem setViewData_length (store : Store) (r : Nat) (d : Option (List Int)) :
    (setViewData store r d).length = store.length := by
  unfold setViewData
  simp

theorem valueAt_setViewData_self (store : Store) (r : Nat) (d : Option (List Int))
    (h : r < store.length) :
    valueAt (setViewData store r d) r
      = { valueAt store r with view := { (valueAt store r).view with data := d } } := by
  unfold setViewData
  exact valueAt_set_self _ _ _ h

theorem reduceStep_inplace (env : MPIEnv) (gIdx : List (Option Nat)) (values : List Nat)
    (i : Nat) (s : St) (h0 : s.err = none) (hgi : gIdx.getD i none = none) :
    reduceStep env gIdx values values i s
      = { s with
          trace := s.trace ++ [Event.allReduceAsync i],
          store := setViewData s.store (values.getD i 0)
            ((valueAt s.store (values.getD i 0)).view.data.map (env.reduce i)) } := by
  have hA : ¬ ((valueAt s.store (values.getD i 0)).view.totalSize
      ≠ (valueAt s.store (values.getD i 0)).view.totalSize) := fun hc => hc rfl
  have hB : ¬ ((valueAt s.store (values.getD i 0)).view.dataType
      ≠ (valueAt s.store (values.getD i 0)).view.dataType) := fun hc => hc rfl
  have hC : ¬ ((valueAt s.store (values.getD i 0)).view.device
      ≠ (valueAt s.store (values.getD i 0)).view.device) := fun hc => hc rfl
  unfold reduceStep
  rw [h0]
  simp only [Option.isSome_none, Bool.false_eq_true, if_false]
  simp only [hgi]
  rw [if_neg hA, if_neg hB, if_neg hC]
  simp [h0]

theorem reduceLoop_inplace (env : MPIEnv) (gIdx : List (Option Nat)) (values : List Nat)
    (hg : ∀ i, gIdx.getD i none = none) :
    ∀ (is : List Nat) (s : St), s.err = none → is.Nodup →
    (∀ i ∈ is, values.getD i 0 < s.store.length) →
    (∀ i ∈ is, ∀ j ∈ is, i ≠ j → values.getD i 0 ≠ values.getD j 0) →
    (reduceLoop env gIdx values values is s).err = none ∧
    ∀ i ∈ is,
      valueAt (reduceLoop env gIdx values values is s).store (values.getD i 0)
        = { valueAt s.store (values.getD i 0) with
            view := { (valueAt s.store (values.getD i 0)).view with
              data := (valueAt s.store (values.getD i 0)).view.data.map
                (env.reduce i) } } := by
  intro is
  induction is with
  | nil =>
    intro s h0 _ _ _
    exact ⟨h0, fun i hi => absurd hi (List.not_mem_nil i)⟩
  | cons i rest ih =>
    intro s h0 hnd hv hdis
    have hni : i ∉ rest := (List.nodup_cons.mp hnd).1
    have hndr : rest.Nodup := (List.nodup_cons.mp hnd).2
    have hstep := reduceStep_inplace env gIdx values i s h0 (hg i)
    have h0' : (reduceStep env gIdx values values i s).err = none := by
      rw [hstep]
      exact h0
    have hlen : (reduceStep env gIdx values values i s).store.length = s.store.length := by
      rw [hstep]
      exact setViewData_length _ _ _
    have hv' : ∀ j ∈ rest, values.getD j 0
        < (reduceStep env gIdx values values i s).store.length := by
      intro j hj
      rw [hlen]
      exact hv j (List.mem_cons_of_mem _ hj)
    have hdis' : ∀ a ∈ rest, ∀ b ∈ rest, a ≠ b → values.getD a 0 ≠ values.getD b 0 :=
      fun a ha b hb hab =>
        hdis a (List.mem_cons_of_mem _ ha) b (List.mem_cons_of_mem _ hb) hab
    obtain ⟨he, hval⟩ := ih (reduceStep env gIdx values values i s) h0' hndr hv' hdis'
    rw [reduceLoop]
    refine ⟨he, ?_⟩
    intro j hj
    rcases List.mem_cons.mp hj with hji | hjr
    · subst hji
      have hfr : ∀ k ∈ rest, values.getD j 0 ≠ values.getD k 0 := fun k hk =>
        hdis j (List.mem_cons_self j rest) k (List.mem_cons_of_mem _ hk)
          (fun hc => hni (hc ▸ hk))
      rw [reduceLoop_store_frame env gIdx values values rest _ _ hfr, hstep]
      exact valueAt_setViewData_self s.store _ _ (hv j (List.mem_cons_self j rest))
    · have h2 := hval j hjr
      have hfr1 : valueAt (reduceStep env gIdx values values i s).store (values.getD j 0)
          = valueAt s.store (values.getD j 0) := by
        rw [hstep]
        exact setViewData_frame s.store _ _ _
          (hdis j hj i (List.mem_cons_self i rest) (fun hc => hni (hc ▸ hjr)))
      rw [h2, hfr1]

theorem Initialize_all_cpu (comm : CommState) (store : Store) (values : List Nat)
    (hd : ∀ r ∈ values, DenseAt store r)
    (hcpu : ∀ r ∈ values, gpuIdOf store r = none) :
    (Initialize comm store values).err = none ∧
    ∀ i, (Initialize comm store values).indices.getD i none = none := by
  obtain ⟨he, hlen, -, hcorr⟩ := initLoop_ok store values
    { comm := comm, indices := [], numGPU := 0, lastGpu := none, err := none }
    rfl hd (fun r1 h1 _ _ => Or.inl (hcpu r1 h1)) (fun _ _ _ _ => Or.inl rfl)
  have hlen' : (Initialize comm store values).indices.length = values.length := by
    simpa using hlen
  refine ⟨he, ?_⟩
  intro i
  by_cases hi : i < values.length
  · have h4 := hcorr i hi
    rw [hcpu (values.getD i 0) (getD_mem values 0 i hi)] at h4
    have h5 : ((Initialize comm store values).indices.getD i none).isSome = false := by
      simpa using h4
    cases hopt : (Initialize comm store values).indices.getD i none with
    | none => rfl
    | some g =>
      rw [hopt] at h5
      simp at h5
  · exact getD_ge_length _ _ _ (by omega)

theorem aggregateImpl_store_frame (env : MPIEnv) (comm : CommState) (store : Store)
    (ins outs : List Nat) (sendTo : List WorkerDesc) (sched : List (Option Nat)) (r : Nat)
    (hout : ∀ i, i < outs.length → r ≠ outs.getD i 0)
    (hgl : (Initialize comm store ins).indices.length ≤ outs.length)
    (hlen : ins.length ≤ outs.length) :
    valueAt (AggregateImpl env comm store ins outs sendTo sched).store r
      = valueAt store r := by
  have hred : ∀ i ∈ List.range ins.length, r ≠ outs.getD i 0 := by
    intro i hi
    exact hout i (Nat.lt_of_lt_of_le (List.mem_range.mp hi) hlen)
  have hdrain : ∀ idx, (Initialize comm store ins).indices.getD idx none ≠ none →
      r ≠ outs.getD idx 0 := by
    intro idx hne
    by_cases hidx : idx < outs.length
    · exact hout idx hidx
    · exact absurd (getD_ge_length _ _ _ (Nat.le_trans hgl (Nat.le_of_not_lt hidx))) hne
  simp only [AggregateImpl]
  split
  · rfl
  · split
    · rfl
    · split
      · rfl
      · rw [finalLoop_store, drainLoop_store_frame _ _ _ _ _ _ _ hdrain,
          reduceLoop_store_frame _ _ _ _ _ _ _ hred, stageLoop_store]

/-! ### Claim theorems -/

/-- C5 (confirmed): staging-buffer pool get-or-grow.  For a slot with no
buffer, one of exactly the required byte count is allocated; a too-small
buffer is reallocated to exactly the required byte count; a large-enough
buffer is returned unchanged (the whole pool is unchanged); consequently
every slot's capacity is monotone, both across one grow step and across a
whole `Initialize` call. -/
theorem staging_buffer_pool_growth :
    (∀ (bufs : List Buffer) (index required : Nat),
        (bufs.length = index →
          (growBuffers bufs index required).getD index default
            = { totalSize := required, data := none }) ∧
        (index < bufs.length → slotSize bufs index < required →
          (growBuffers bufs index required).getD index default
            = { totalSize := required, data := none }) ∧
        (index < bufs.length → required ≤ slotSize bufs index →
          growBuffers bufs index required = bufs) ∧
        (∀ j, slotSize bufs j ≤ slotSize (growBuffers bufs index required) j)) ∧
    (∀ (comm : CommState) (store : Store) (refs : List Nat) (j : Nat),
        slotSize comm.intermediateCPUBuffers j
          ≤ slotSize (Initialize comm store refs).comm.intermediateCPUBuffers j) :=
  ⟨fun bufs index required =>
    ⟨growBuffers_fresh bufs index required,
     fun h1 h2 => growBuffers_realloc bufs index required h1 h2,
     fun h1 h2 => growBuffers_fits bufs index required h1 h2,
     fun j => slotSize_growBuffers_le bufs index required j⟩,
   fun comm store refs j => initLoop_slotSize_le store refs
     { comm := comm, indices := [], numGPU := 0, lastGpu := none, err := none } j⟩

/-- Witness for C5 at concrete slots: a fresh slot is allocated at exactly
8 bytes, a 4-byte slot grows to exactly 8, an 8-byte slot asked for 4
bytes is returned as is, and capacity does not shrink across an
`Initialize` call. -/
theorem staging_buffer_pool_growth_witness :
    (growBuffers [] 0 8).getD 0 default = { totalSize := 8, data := none } ∧
    (growBuffers [{ totalSize := 4, data := none }] 0 8).getD 0 default
      = { totalSize := 8, data := none } ∧
    growBuffers [{ totalSize := 8, data := some [1] }] 0 4
      = [{ totalSize := 8, data := some [1] }] ∧
    slotSize commEmpty.intermediateCPUBuffers 0
      ≤ slotSize (Initialize commEmpty [gpuFloat 0 [1, 2]] [0]).comm.intermediateCPUBuffers 0 :=
  ⟨(staging_buffer_pool_growth.1 [] 0 8).1 rfl,
   (staging_buffer_pool_growth.1 [{ totalSize := 4, data := none }] 0 8).2.1
     (by decide) (by decide),
   (staging_buffer_pool_growth.1 [{ totalSize := 8, data := some [1] }] 0 4).2.2.1
     (by decide) (by decide),
   staging_buffer_pool_growth.2 commEmpty [gpuFloat 0 [1, 2]] [0] 0⟩

/-- C10 (confirmed): `Aggregate` dereferences every input's mask pointer
unconditionally while allocating the fresh output masks, so a missing
mask is fatal (the modelled undefined behavior), and when every input's
mask is present that fatal outcome is unreachable. -/
theorem aggregate_requires_masks (env : MPIEnv) (comm : CommState) (store : Store)
    (values : List Nat) (sendToWorkers : List WorkerDesc) (schedule : List (Option Nat))
    (hv : ∀ r ∈ values, r < store.length) :
    ((∃ r ∈ values, (valueAt store r).mask = none) →
      (Aggregate env comm store values sendToWorkers schedule).st.err
        = some RunError.nullMaskDeref) ∧
    ((∀ r ∈ values, (valueAt store r).mask ≠ none) →
      (Aggregate env comm store values sendToWorkers schedule).st.err
        ≠ some RunError.nullMaskDeref) := by
  constructor
  · intro hex
    have h := allocLoop_missing_mask values { store := store, outputs := [], err := none }
      rfl hv hex
    simp only [Aggregate, h]
  · intro hall
    have h := allocLoop_all_masks values { store := store, outputs := [], err := none }
      rfl hv hall
    simp only [Aggregate, h]
    exact aggregateImpl_noMask env comm _ values _ sendToWorkers schedule

/-- Witness for C10: a single maskless input makes `Aggregate` hit the
null-mask dereference; with the mask present it does not. -/
theorem aggregate_requires_masks_witness :
    (Aggregate envOne commEmpty [noMaskFloat] [0] [] []).st.err
        = some RunError.nullMaskDeref ∧
    (Aggregate envOne commEmpty [cpuFloat [1]] [0] [] []).st.err
        ≠ some RunError.nullMaskDeref :=
  ⟨(aggregate_requires_masks envOne commEmpty [noMaskFloat] [0] [] [] (by decide)).1
      (by decide),
   (aggregate_requires_masks envOne commEmpty [cpuFloat [1]] [0] [] [] (by decide)).2
      (by decide)⟩

/-- C1 (code bug): with a single worker, `Aggregate` performs zero
transport calls (the trace is empty), but the outputs it returns are the
freshly allocated, uninitialized views — the early return of
`AggregateImpl` (line 211) never copies the inputs into them, so the
outputs are NOT numerically identical to the inputs, contradicting the
spec's testable property. -/
theorem aggregate_single_worker_returns_uninitialized_outputs :
    (Aggregate envOne commEmpty [cpuFloat [1, 2, 3]] [0] [] []).st.err = none ∧
    (Aggregate envOne commEmpty [cpuFloat [1, 2, 3]] [0] [] []).st.trace = [] ∧
    (Aggregate envOne commEmpty [cpuFloat [1, 2, 3]] [0] [] []).outputs = [1] ∧
    (valueAt (Aggregate envOne commEmpty [cpuFloat [1, 2, 3]] [0] [] []).st.store 0).view.data
      = some [1, 2, 3] ∧
    (valueAt (Aggregate envOne commEmpty [cpuFloat [1, 2, 3]] [0] [] []).st.store 1).view.data
      = none := by
  decide

/-- C7 (confirmed): `Aggregate`, `AggregateInPlace` and `AggregateImpl`
ignore the `sendToWorkers` recipient subset entirely: two calls differing
only in it have identical results. -/
theorem sendToWorkers_ignored (env : MPIEnv) (comm : CommState) (store : Store)
    (inputValues outputValues : List Nat) (s1 s2 : List WorkerDesc)
    (schedule : List (Option Nat)) :
    AggregateImpl env comm store inputValues outputValues s1 schedule
        = AggregateImpl env comm store inputValues outputValues s2 schedule ∧
    Aggregate env comm store inputValues s1 schedule
        = Aggregate env comm store inputValues s2 schedule ∧
    AggregateInPlace env comm store inputValues s1 schedule
        = AggregateInPlace env comm store inputValues s2 schedule :=
  ⟨rfl, rfl, rfl⟩

/-- C9 (confirmed): `SubGroup`, `Concatenate` and `QuantizedAggregate`
fail with the fatal not-implemented error for every argument; none of them
ever returns successfully. -/
theorem unimplemented_operations_fail (sendToWorkers : List WorkerDesc)
    (values a b c d : List Nat) :
    SubGroup sendToWorkers = Except.error RunError.notImplemented ∧
    Concatenate values sendToWorkers = Except.error RunError.notImplemented ∧
    QuantizedAggregate a b sendToWorkers c d = Except.error RunError.notImplemented :=
  ⟨rfl, rfl, rfl⟩

/-- C2 (counterexample): a multi-worker `AggregateImpl` call whose second
input/output pair mismatches in element count fails fatally, but only
AFTER the all-reduce for the first (well-formed) pair was already issued:
the failure does not precede every transport call. -/
theorem aggregateImpl_mismatch_after_transport_call :
    (AggregateImpl envThree commEmpty
        [cpuFloat [1], cpuFloat [5, 6], cpuFloat [0], cpuFloat [0]]
        [0, 1] [2, 3] [] [some 0]).err
      = some (RunError.assertFailed "numElements == outputView Shape TotalSize") ∧
    Event.allReduceAsync 0 ∈
      (AggregateImpl envThree commEmpty
        [cpuFloat [1], cpuFloat [5, 6], cpuFloat [0], cpuFloat [0]]
        [0, 1] [2, 3] [] [some 0]).trace := by
  decide

/-- C3 (counterexample): with a single worker, a sparse input does NOT
fail: `AggregateImpl` returns before any validation, so the call is a
silent no-op. -/
theorem sparse_single_worker_no_failure :
    (AggregateInPlace envOne commEmpty [sparseFloat] [0] [] []).err = none ∧
    (AggregateInPlace envOne commEmpty [sparseFloat] [0] [] []).trace = [] := by
  decide

/-- C6 (counterexample): with a single worker, inputs on two distinct GPU
device ids do NOT fail: `AggregateImpl` returns before any validation. -/
theorem mixed_gpu_single_worker_no_failure :
    (AggregateInPlace envOne commEmpty [gpuFloat 0 [1], gpuFloat 1 [2]]
        [0, 1] [] []).err = none ∧
    (AggregateInPlace envOne commEmpty [gpuFloat 0 [1], gpuFloat 1 [2]]
        [0, 1] [] []).trace = [] := by
  decide

/-- C3 (amended, proved): in a call with MORE THAN ONE worker, a sparse
input (with at most one distinct GPU id among the inputs, and — for
`Aggregate` — valid references and present masks, so that no other fatal
error precedes the sparse check) fails fatally with the not-supported
runtime error and an empty trace: zero transport calls. -/
theorem sparse_rejected_multiworker (env : MPIEnv) (comm : CommState) (store : Store)
    (values : List Nat) (sendToWorkers : List WorkerDesc) (schedule : List (Option Nat))
    (hn : 2 ≤ env.numNodes)
    (hs : ∃ r ∈ values, ¬ DenseAt store r)
    (hg : UniformGpu store values)
    (hv : ∀ r ∈ values, r < store.length)
    (hm : ∀ r ∈ values, (valueAt store r).mask ≠ none) :
    ((AggregateInPlace env comm store values sendToWorkers schedule).err
        = some (RunError.runtimeError
          "Aggregation for sparse matrices is currently not supported!") ∧
      (AggregateInPlace env comm store values sendToWorkers schedule).trace = []) ∧
    ((Aggregate env comm store values sendToWorkers schedule).st.err
        = some (RunError.runtimeError
          "Aggregation for sparse matrices is currently not supported!") ∧
      (Aggregate env comm store values sendToWorkers schedule).st.trace = []) := by
  have hn1 : env.numNodes ≠ 1 := by omega
  obtain ⟨r0, hr0, -⟩ := id hs
  have hlen0 : values.length ≠ 0 := by
    cases values with
    | nil => cases hr0
    | cons a rest => simp
  constructor
  · have h1 := aggregateImpl_init_error env comm store values values sendToWorkers schedule
      _ hn1 rfl hlen0 (Initialize_err_of_sparse comm store values hg hs)
    unfold AggregateInPlace
    rw [h1]
    exact ⟨rfl, rfl⟩
  · obtain ⟨he, hstore, houts⟩ := allocLoop_ok_spec values
      { store := store, outputs := [], err := none } rfl hv hm
    rw [aggregate_alloc_ok env comm store values sendToWorkers schedule he]
    have hg2 : UniformGpu
        (allocLoop values { store := store, outputs := [], err := none }).store values := by
      intro r1 h1 r2 h2
      rw [hstore, gpuIdOf_append_lt _ _ _ (hv r1 h1), gpuIdOf_append_lt _ _ _ (hv r2 h2)]
      exact hg r1 h1 r2 h2
    have hs2 : ∃ r ∈ values,
        ¬ DenseAt (allocLoop values { store := store, outputs := [], err := none }).store r := by
      obtain ⟨r, hr, hrd⟩ := hs
      refine ⟨r, hr, ?_⟩
      rw [hstore, DenseAt_append_lt _ _ _ (hv r hr)]
      exact hrd
    have hlen2 : values.length
        = (allocLoop values { store := store, outputs := [], err := none }).outputs.length := by
      rw [houts]; simp
    have h2 := aggregateImpl_init_error env comm
      (allocLoop values { store := store, outputs := [], err := none }).store values
      (allocLoop values { store := store, outputs := [], err := none }).outputs
      sendToWorkers schedule _ hn1 hlen2 hlen0
      (Initialize_err_of_sparse comm _ values hg2 hs2)
    rw [h2]
    exact ⟨rfl, rfl⟩

/-- Witness for C3 (amended): three workers, one sparse input, both entry
points fail with the not-supported error and an empty trace. -/
theorem sparse_rejected_multiworker_witness :
    ((AggregateInPlace envThree commEmpty [sparseFloat] [0] [] []).err
        = some (RunError.runtimeError
          "Aggregation for sparse matrices is currently not supported!") ∧
      (AggregateInPlace envThree commEmpty [sparseFloat] [0] [] []).trace = []) ∧
    ((Aggregate envThree commEmpty [sparseFloat] [0] [] []).st.err
        = some (RunError.runtimeError
          "Aggregation for sparse matrices is currently not supported!") ∧
      (Aggregate envThree commEmpty [sparseFloat] [0] [] []).st.trace = []) :=
  sparse_rejected_multiworker envThree commEmpty [sparseFloat] [0] [] []
    (by decide) (by decide) (by decide) (by decide) (by decide)

/-- C6 (amended, proved): in a call with MORE THAN ONE worker whose inputs
are all dense and carry two distinct GPU device ids (with valid references
and present masks for the `Aggregate` entry point), the call fails fatally
with the device-clash logic error and an empty trace. -/
theorem mixed_gpu_rejected_multiworker (env : MPIEnv) (comm : CommState) (store : Store)
    (values : List Nat) (sendToWorkers : List WorkerDesc) (schedule : List (Option Nat))
    (hn : 2 ≤ env.numNodes)
    (hd : ∀ r ∈ values, DenseAt store r)
    (hmix : ∃ r1 ∈ values, ∃ r2 ∈ values, (gpuIdOf store r1).isSome ∧
      (gpuIdOf store r2).isSome ∧ gpuIdOf store r1 ≠ gpuIdOf store r2)
    (hv : ∀ r ∈ values, r < store.length)
    (hm : ∀ r ∈ values, (valueAt store r).mask ≠ none) :
    ((AggregateInPlace env comm store values sendToWorkers schedule).err
        = some (RunError.logicError "Not all values share the same GPU device id") ∧
      (AggregateInPlace env comm store values sendToWorkers schedule).trace = []) ∧
    ((Aggregate env comm store values sendToWorkers schedule).st.err
        = some (RunError.logicError "Not all values share the same GPU device id") ∧
      (Aggregate env comm store values sendToWorkers schedule).st.trace = []) := by
  have hn1 : env.numNodes ≠ 1 := by omega
  obtain ⟨r1, hr1, r2, hr2, hs1, hs2, hneq⟩ := id hmix
  have hlen0 : values.length ≠ 0 := by
    cases values with
    | nil => cases hr1
    | cons a rest => simp
  obtain ⟨id1, hid1⟩ := Option.isSome_iff_exists.mp hs1
  obtain ⟨id2, hid2⟩ := Option.isSome_iff_exists.mp hs2
  have hmix' : ∃ ra ∈ values, ∃ rb ∈ values, ∃ ida idb,
      gpuIdOf store ra = some ida ∧ gpuIdOf store rb = some idb ∧ ida ≠ idb :=
    ⟨r1, hr1, r2, hr2, id1, id2, hid1, hid2,
      fun hc => hneq (by rw [hid1, hid2, hc])⟩
  constructor
  · have h1 := aggregateImpl_init_error env comm store values values sendToWorkers schedule
      _ hn1 rfl hlen0 (Initialize_err_of_mixed comm store values hd hmix')
    unfold AggregateInPlace
    rw [h1]
    exact ⟨rfl, rfl⟩
  · obtain ⟨he, hstore, houts⟩ := allocLoop_ok_spec values
      { store := store, outputs := [], err := none } rfl hv hm
    rw [aggregate_alloc_ok env comm store values sendToWorkers schedule he]
    have hd2 : ∀ r ∈ values,
        DenseAt (allocLoop values { store := store, outputs := [], err := none }).store r := by
      intro r hr
      rw [hstore, DenseAt_append_lt _ _ _ (hv r hr)]
      exact hd r hr
    have hmix2 : ∃ ra ∈ values, ∃ rb ∈ values, ∃ id1 id2,
        gpuIdOf (allocLoop values { store := store, outputs := [], err := none }).store ra
          = some id1 ∧
        gpuIdOf (allocLoop values { store := store, outputs := [], err := none }).store rb
          = some id2 ∧ id1 ≠ id2 := by
      obtain ⟨ra, ha, rb, hb, id1, id2, h1, h2, hne⟩ := hmix'
      exact ⟨ra, ha, rb, hb, id1, id2,
        by rw [hstore, gpuIdOf_append_lt _ _ _ (hv ra ha)]; exact h1,
        by rw [hstore, gpuIdOf_append_lt _ _ _ (hv rb hb)]; exact h2, hne⟩
    have hlen2 : values.length
        = (allocLoop values { store := store, outputs := [], err := none }).outputs.length := by
      rw [houts]; simp
    have h2 := aggregateImpl_init_error env comm
      (allocLoop values { store := store, outputs := [], err := none }).store values
      (allocLoop values { store := store, outputs := [], err := none }).outputs
      sendToWorkers schedule _ hn1 hlen2 hlen0
      (Initialize_err_of_mixed comm _ values hd2 hmix2)
    rw [h2]
    exact ⟨rfl, rfl⟩

/-- Witness for C6 (amended): three workers, two dense inputs on GPU 0 and
GPU 1, both entry points fail with the device-clash logic error. -/
theorem mixed_gpu_rejected_multiworker_witness :
    ((AggregateInPlace envThree commEmpty [gpuFloat 0 [1], gpuFloat 1 [2]]
        [0, 1] [] []).err
        = some (RunError.logicError "Not all values share the same GPU device id") ∧
      (AggregateInPlace envThree commEmpty [gpuFloat 0 [1], gpuFloat 1 [2]]
        [0, 1] [] []).trace = []) ∧
    ((Aggregate envThree commEmpty [gpuFloat 0 [1], gpuFloat 1 [2]]
        [0, 1] [] []).st.err
        = some (RunError.logicError "Not all values share the same GPU device id") ∧
      (Aggregate envThree commEmpty [gpuFloat 0 [1], gpuFloat 1 [2]]
        [0, 1] [] []).st.trace = []) :=
  mixed_gpu_rejected_multiworker envThree commEmpty [gpuFloat 0 [1], gpuFloat 1 [2]]
    [0, 1] [] [] (by decide) (by decide) (by decide) (by decide) (by decide)


/-- C2 (amended, proved): in a multi-worker `AggregateImpl` call over
dense inputs on at most one GPU device, if the first mismatched
input/output pair (in element count, data type or device) is at slot `m`,
the call fails fatally with an assertion failure BEFORE slot `m`'s
all-reduce is issued — but all-reduces of the earlier, well-formed slots
may already have been issued: every all-reduce in the trace belongs to a
slot before `m`.  (With one worker the check is skipped entirely.) -/
theorem aggregateImpl_mismatch_fails_before_own_transport (env : MPIEnv)
    (comm : CommState) (store : Store) (ins outs : List Nat)
    (sendTo : List WorkerDesc) (sched : List (Option Nat))
    (hn : 2 ≤ env.numNodes) (hlen : ins.length = outs.length)
    (hd : ∀ r ∈ ins, DenseAt store r) (hg : UniformGpu store ins)
    (m : Nat) (hm : m < ins.length)
    (hpre : ∀ j, j < m → PairMatched store ins outs j)
    (hbad : ¬ PairMatched store ins outs m) :
    (∃ msg, (AggregateImpl env comm store ins outs sendTo sched).err
        = some (RunError.assertFailed msg)) ∧
    Event.allReduceAsync m ∉ (AggregateImpl env comm store ins outs sendTo sched).trace ∧
    (∀ k, Event.allReduceAsync k ∈ (AggregateImpl env comm store ins outs sendTo sched).trace
      → k < m) := by
  have hn1 : env.numNodes ≠ 1 := by omega
  have hne : ins.length ≠ 0 := by omega
  obtain ⟨hie, -, -, -⟩ := initLoop_ok store ins
    { comm := comm, indices := [], numGPU := 0, lastGpu := none, err := none }
    rfl hd hg (fun _ _ _ _ => Or.inl rfl)
  simp only [AggregateImpl]
  rw [if_neg hn1, if_neg (by omega), if_neg hne]
  have hsplit : List.range ins.length
      = List.range m ++ m :: List.range' (m + 1) (ins.length - (m + 1)) :=
    range_split m ins.length hm
  rw [hsplit, reduceLoop_append]
  have h0 : (St.mk (Initialize comm store ins).comm store []
      (Initialize comm store ins).err).err = none := hie
  obtain ⟨he2, hs2, ht2⟩ := stageLoop_exact (Initialize comm store ins).indices ins
    (List.range m ++ m :: List.range' (m + 1) (ins.length - (m + 1)))
    (St.mk (Initialize comm store ins).comm store [] (Initialize comm store ins).err) h0
  obtain ⟨he3, ht3, hm3⟩ := reduceLoop_ok env (Initialize comm store ins).indices ins outs
    (List.range m) _ he2
    (by
      intro j hj
      rw [hs2]
      exact hpre j (List.mem_range.mp hj))
  have hsx : (stageLoop (Initialize comm store ins).indices ins
      (List.range m ++ m :: List.range' (m + 1) (ins.length - (m + 1)))
      (St.mk (Initialize comm store ins).comm store []
        (Initialize comm store ins).err)).store = store := hs2
  have hbad3 : ¬ PairMatched (reduceLoop env (Initialize comm store ins).indices ins outs
      (List.range m) (stageLoop (Initialize comm store ins).indices ins
        (List.range m ++ m :: List.range' (m + 1) (ins.length - (m + 1)))
        (St.mk (Initialize comm store ins).comm store []
          (Initialize comm store ins).err))).store ins outs m := by
    intro hc
    apply hbad
    have h2 := PairMatched_of_meta _ _ ins outs m (fun r => (hm3 r).symm) hc
    rw [hsx] at h2
    exact h2
  obtain ⟨⟨msg, hf⟩, htf, hsf⟩ := reduceStep_fail env (Initialize comm store ins).indices
    ins outs m _ he3 hbad3
  have hfz : (reduceStep env (Initialize comm store ins).indices ins outs m
      (reduceLoop env (Initialize comm store ins).indices ins outs (List.range m)
        (stageLoop (Initialize comm store ins).indices ins
          (List.range m ++ m :: List.range' (m + 1) (ins.length - (m + 1)))
          (St.mk (Initialize comm store ins).comm store []
            (Initialize comm store ins).err)))).err.isSome = true := by
    rw [hf]; rfl
  rw [show ∀ s, reduceLoop env (Initialize comm store ins).indices ins outs
      (m :: List.range' (m + 1) (ins.length - (m + 1))) s
      = reduceLoop env (Initialize comm store ins).indices ins outs
        (List.range' (m + 1) (ins.length - (m + 1)))
        (reduceStep env (Initialize comm store ins).indices ins outs m s)
    from fun s => rfl]
  rw [reduceLoop_frozen _ _ _ _ _ _ hfz, drainLoop_frozen _ _ _ _ _ _ hfz,
    finalLoop_frozen _ _ _ hfz]
  refine ⟨⟨msg, hf⟩, ?_, ?_⟩
  · intro hmem
    rw [htf, ht3, ht2] at hmem
    simp only [List.nil_append, List.append_assoc, List.mem_append] at hmem
    rcases hmem with h1 | h2 | h3
    · obtain ⟨j, -, he⟩ := mem_stageSeg _ _ _ h1
      cases he
    · obtain ⟨j, hj, he⟩ := mem_reduceSeg _ _ _ h2
      rcases he with he | he
      · cases he
      · cases he
        exact absurd (List.mem_range.mp hj) (by omega)
    · by_cases hgt : gpuTag (Initialize comm store ins).indices m
      · rw [if_pos hgt] at h3
        simp at h3
      · rw [if_neg hgt] at h3
        cases h3
  · intro k hmem
    rw [htf, ht3, ht2] at hmem
    simp only [List.nil_append, List.append_assoc, List.mem_append] at hmem
    rcases hmem with h1 | h2 | h3
    · obtain ⟨j, -, he⟩ := mem_stageSeg _ _ _ h1
      cases he
    · obtain ⟨j, hj, he⟩ := mem_reduceSeg _ _ _ h2
      rcases he with he | he
      · cases he
      · cases he
        exact List.mem_range.mp hj
    · by_cases hgt : gpuTag (Initialize comm store ins).indices m
      · rw [if_pos hgt] at h3
        simp at h3
      · rw [if_neg hgt] at h3
        cases h3

/-- Witness for C2 (amended): two CPU pairs, the second mismatched in
element count; the call fails with an assertion failure, slot 1's
all-reduce is never issued, and every issued all-reduce belongs to slot
0. -/
theorem aggregateImpl_mismatch_fails_before_own_transport_witness :
    (∃ msg, (AggregateImpl envThree commEmpty
        [cpuFloat [1], cpuFloat [5, 6], cpuFloat [0], cpuFloat [0]]
        [0, 1] [2, 3] [] [some 0]).err = some (RunError.assertFailed msg)) ∧
    Event.allReduceAsync 1 ∉ (AggregateImpl envThree commEmpty
        [cpuFloat [1], cpuFloat [5, 6], cpuFloat [0], cpuFloat [0]]
        [0, 1] [2, 3] [] [some 0]).trace ∧
    (∀ k, Event.allReduceAsync k ∈ (AggregateImpl envThree commEmpty
        [cpuFloat [1], cpuFloat [5, 6], cpuFloat [0], cpuFloat [0]]
        [0, 1] [2, 3] [] [some 0]).trace → k < 1) :=
  aggregateImpl_mismatch_fails_before_own_transport envThree commEmpty
    [cpuFloat [1], cpuFloat [5, 6], cpuFloat [0], cpuFloat [0]]
    [0, 1] [2, 3] [] [some 0] (by decide) (by decide) (by decide) (by decide)
    1 (by decide) (by decide) (by decide)


/-- C4 (confirmed): temporal ordering of GPU transfers in a valid
multi-worker `AggregateImpl` run.  (a) For every GPU-resident tensor, the
blocking wait on its device-to-host copy precedes its non-blocking
all-reduce; (b) the instant a GPU-resident tensor's reduction is observed
complete in the drain loop, its asynchronous host-to-device copy-back is
the very next interaction; (c) every issued copy-back is followed, before
the call returns, by the blocking wait on that slot's host-to-device
transfer. -/
theorem aggregateImpl_gpu_transfer_ordering (env : MPIEnv) (comm : CommState)
    (store : Store) (ins outs : List Nat) (sendTo : List WorkerDesc)
    (sched : List (Option Nat))
    (hn : 2 ≤ env.numNodes) (hlen : ins.length = outs.length)
    (hd : ∀ r ∈ ins, DenseAt store r) (hg : UniformGpu store ins)
    (hmatch : ∀ j, j < ins.length → PairMatched store ins outs j) :
    (∀ i q, (AggregateImpl env comm store ins outs sendTo sched).trace.get? q
        = some (Event.allReduceAsync i) →
      GpuAt store (ins.getD i 0) →
      ∃ p, p < q ∧ (AggregateImpl env comm store ins outs sendTo sched).trace.get? p
        = some (Event.waitGPUToCPU i)) ∧
    (∀ p idx, idx < ins.length →
      (AggregateImpl env comm store ins outs sendTo sched).trace.get? p
        = some (Event.waitAnyReturned idx) →
      GpuAt store (ins.getD idx 0) →
      (AggregateImpl env comm store ins outs sendTo sched).trace.get? (p + 1)
        = some (Event.copyCPUToGPUAsync idx)) ∧
    (∀ p idx, (AggregateImpl env comm store ins outs sendTo sched).trace.get? p
        = some (Event.copyCPUToGPUAsync idx) →
      ∃ q, p < q ∧ (AggregateImpl env comm store ins outs sendTo sched).trace.get? q
        = some (Event.waitCPUToGPU idx)) := by
  by_cases hne : ins.length = 0
  · have himpl : AggregateImpl env comm store ins outs sendTo sched
        = { comm := comm, store := store, trace := [], err := none } := by
      simp only [AggregateImpl]
      rw [if_neg (by omega), if_neg (by omega), if_pos hne]
    rw [himpl]
    refine ⟨?_, ?_, ?_⟩
    · intro i q hq _
      simp at hq
    · intro p idx _ hq _
      simp at hq
    · intro p idx hq
      simp at hq
  · obtain ⟨herr, htr, hmeta, hglen, hcorr⟩ := aggregateImpl_valid_run env comm store
      ins outs sendTo sched (by omega) hlen hne hd hg hmatch
    have htr' : (AggregateImpl env comm store ins outs sendTo sched).trace
        = fullSeg (Initialize comm store ins).indices ins.length sched := htr
    rw [htr']
    refine ⟨?_, ?_, ?_⟩
    · intro i q hq hgpu
      have hi : i < ins.length := by
        have hmem := getq_mem hq
        unfold fullSeg at hmem
        rcases List.mem_append.mp hmem with h1 | h23
        · obtain ⟨j, -, he⟩ := mem_stageSeg _ _ _ h1
          cases he
        · rcases List.mem_append.mp h23 with h2 | h34
          · obtain ⟨j, hj, he⟩ := mem_reduceSeg _ _ _ h2
            rcases he with he | he
            · cases he
            · cases he
              exact List.mem_range.mp hj
          · rcases List.mem_append.mp h34 with h3 | h4
            · rcases mem_drainSeg _ _ _ _ _ h3 with ⟨j, he⟩ | ⟨j, he, -⟩ <;> cases he
            · obtain ⟨j, -, he⟩ := mem_finalSeg _ _ _ h4
              cases he
      have hTag : gpuTag (Initialize comm store ins).indices i = true := by
        rw [hcorr i hi]
        exact (GpuAt_iff_isSome store (ins.getD i 0)).mp hgpu
      exact fullSeg_wait_precedes _ _ _ i hTag q hq
    · intro p idx hidx hq hgpu
      have hTag : gpuTag (Initialize comm store ins).indices idx = true := by
        rw [hcorr idx hidx]
        exact (GpuAt_iff_isSome store (ins.getD idx 0)).mp hgpu
      exact fullSeg_copy_follows _ _ _ idx hTag p hq
    · intro p idx hq
      exact fullSeg_final_wait _ _ _ idx hglen p hq

/-- Witness for C4: three workers, a GPU tensor and a CPU tensor, a
schedule completing slot 1 then slot 0; the ordering properties hold at
this concrete run. -/
theorem aggregateImpl_gpu_transfer_ordering_witness :
    (∀ i q, (AggregateImpl envThree commEmpty
        [gpuFloat 0 [1, 2], cpuFloat [7], gpuFloat 0 [0, 0], cpuFloat [0]]
        [0, 1] [2, 3] [] [some 1, some 0]).trace.get? q
        = some (Event.allReduceAsync i) →
      GpuAt [gpuFloat 0 [1, 2], cpuFloat [7], gpuFloat 0 [0, 0], cpuFloat [0]]
        ([0, 1].getD i 0) →
      ∃ p, p < q ∧ (AggregateImpl envThree commEmpty
        [gpuFloat 0 [1, 2], cpuFloat [7], gpuFloat 0 [0, 0], cpuFloat [0]]
        [0, 1] [2, 3] [] [some 1, some 0]).trace.get? p
        = some (Event.waitGPUToCPU i)) ∧
    (∀ p idx, idx < ([0, 1] : List Nat).length →
      (AggregateImpl envThree commEmpty
        [gpuFloat 0 [1, 2], cpuFloat [7], gpuFloat 0 [0, 0], cpuFloat [0]]
        [0, 1] [2, 3] [] [some 1, some 0]).trace.get? p
        = some (Event.waitAnyReturned idx) →
      GpuAt [gpuFloat 0 [1, 2], cpuFloat [7], gpuFloat 0 [0, 0], cpuFloat [0]]
        ([0, 1].getD idx 0) →
      (AggregateImpl envThree commEmpty
        [gpuFloat 0 [1, 2], cpuFloat [7], gpuFloat 0 [0, 0], cpuFloat [0]]
        [0, 1] [2, 3] [] [some 1, some 0]).trace.get? (p + 1)
        = some (Event.copyCPUToGPUAsync idx)) ∧
    (∀ p idx, (AggregateImpl envThree commEmpty
        [gpuFloat 0 [1, 2], cpuFloat [7], gpuFloat 0 [0, 0], cpuFloat [0]]
        [0, 1] [2, 3] [] [some 1, some 0]).trace.get? p
        = some (Event.copyCPUToGPUAsync idx) →
      ∃ q, p < q ∧ (AggregateImpl envThree commEmpty
        [gpuFloat 0 [1, 2], cpuFloat [7], gpuFloat 0 [0, 0], cpuFloat [0]]
        [0, 1] [2, 3] [] [some 1, some 0]).trace.get? q
        = some (Event.waitCPUToGPU idx)) :=
  aggregateImpl_gpu_transfer_ordering envThree commEmpty
    [gpuFloat 0 [1, 2], cpuFloat [7], gpuFloat 0 [0, 0], cpuFloat [0]]
    [0, 1] [2, 3] [] [some 1, some 0]
    (by decide) (by decide) (by decide) (by decide) (by decide)

/-- C8 (confirmed): `AggregateInPlace` writes the reduced values into the
input tensors themselves (proved here on the dense all-CPU multi-worker
path with distinct in-range input references: afterwards each input's
buffer holds the all-reduce of its own original contents, and no error is
raised); `Aggregate` never modifies any pre-existing store entry — in
particular every input tensor is left unmodified — and, when every input
has a mask, returns freshly allocated output references (one per input,
appended past the end of the caller's store, in input order) whose data
type, shape and device in the final store equal those of the corresponding
inputs, with dense storage. -/
theorem aggregate_inplace_frame_effects (env : MPIEnv) (comm : CommState)
    (store : Store) (values : List Nat) (sendTo : List WorkerDesc)
    (sched : List (Option Nat)) :
    (env.numNodes ≠ 1 → values.Nodup →
      (∀ r ∈ values, r < store.length) →
      (∀ r ∈ values, DenseAt store r) →
      (∀ r ∈ values, gpuIdOf store r = none) →
      (AggregateInPlace env comm store values sendTo sched).err = none ∧
      ∀ i, i < values.length →
        valueAt (AggregateInPlace env comm store values sendTo sched).store
            (values.getD i 0)
          = { valueAt store (values.getD i 0) with
              view := { (valueAt store (values.getD i 0)).view with
                data := (valueAt store (values.getD i 0)).view.data.map
                  (env.reduce i) } }) ∧
    (∀ r, r < store.length →
      valueAt (Aggregate env comm store values sendTo sched).st.store r
        = valueAt store r) ∧
    ((∀ r ∈ values, r < store.length) →
      (∀ r ∈ values, (valueAt store r).mask ≠ none) →
      (Aggregate env comm store values sendTo sched).outputs
        = List.range' store.length values.length ∧
      ∀ i, i < values.length →
        (valueAt (Aggregate env comm store values sendTo sched).st.store
            (store.length + i)).view.dataType
          = (valueAt store (values.getD i 0)).view.dataType ∧
        (valueAt (Aggregate env comm store values sendTo sched).st.store
            (store.length + i)).view.shape
          = (valueAt store (values.getD i 0)).view.shape ∧
        (valueAt (Aggregate env comm store values sendTo sched).st.store
            (store.length + i)).view.device
          = (valueAt store (values.getD i 0)).view.device ∧
        (valueAt (Aggregate env comm store values sendTo sched).st.store
            (store.length + i)).view.storageFormat
          = StorageFormat.Dense) := by
  refine ⟨?_, ?_, ?_⟩
  · -- `AggregateInPlace` mutates the inputs in place.
    intro hn hnd hv hd hcpu
    obtain ⟨hie, hidx⟩ := Initialize_all_cpu comm store values hd hcpu
    by_cases hne0 : values.length = 0
    · simp only [AggregateInPlace, AggregateImpl]
      rw [if_neg hn, if_neg (by omega), if_pos hne0]
      exact ⟨rfl, fun i hi => absurd hi (by omega)⟩
    · simp only [AggregateInPlace, AggregateImpl]
      rw [if_neg hn, if_neg (by omega), if_neg hne0]
      have h0 : (St.mk (Initialize comm store values).comm store []
          (Initialize comm store values).err).err = none := hie
      obtain ⟨he2, hs2, -⟩ := stageLoop_exact (Initialize comm store values).indices values
        (List.range values.length)
        (St.mk (Initialize comm store values).comm store []
          (Initialize comm store values).err) h0
      have hv' : ∀ j ∈ List.range values.length, values.getD j 0 <
          (stageLoop (Initialize comm store values).indices values (List.range values.length)
            (St.mk (Initialize comm store values).comm store []
              (Initialize comm store values).err)).store.length := by
        intro j hj
        rw [hs2]
        exact hv _ (getD_mem values 0 j (List.mem_range.mp hj))
      have hdis' : ∀ a ∈ List.range values.length, ∀ b ∈ List.range values.length,
          a ≠ b → values.getD a 0 ≠ values.getD b 0 := by
        intro a ha b hb hab
        exact nodup_getD_ne values 0 hnd a b (List.mem_range.mp ha) (List.mem_range.mp hb) hab
      obtain ⟨he3, hval3⟩ := reduceLoop_inplace env (Initialize comm store values).indices
        values hidx (List.range values.length) _ he2 (List.nodup_range values.length) hv' hdis'
      obtain ⟨he4, -, -⟩ := drainLoop_exact (Initialize comm store values).indices values
        values.length sched 0 _ he3
      obtain ⟨he5, hs5, -⟩ := finalLoop_exact (Initialize comm store values).indices
        (List.range values.length) _ he4
      refine ⟨he5, ?_⟩
      intro i hi
      rw [hs5,
        drainLoop_store_frame _ _ _ _ _ _ _ (fun idx hnone => absurd (hidx idx) hnone),
        hval3 i (List.mem_range.mpr hi), hs2]
  · -- `Aggregate` never touches a pre-existing store entry.
    intro r hr
    obtain ⟨tail, htail⟩ :=
      allocLoop_store_extends values { store := store, outputs := [], err := none }
    have htail' : (allocLoop values { store := store, outputs := [], err := none }).store
        = store ++ tail := htail
    cases ha : (allocLoop values { store := store, outputs := [], err := none }).err with
    | some e =>
      simp only [Aggregate, ha]
      rw [htail']
      exact valueAt_append_lt store tail r hr
    | none =>
      have hout : ∀ i,
          i < (allocLoop values { store := store, outputs := [], err := none }).outputs.length →
          r ≠ (allocLoop values { store := store, outputs := [], err := none }).outputs.getD i 0 := by
        intro i hi hc
        have hmem := getD_mem
          (allocLoop values { store := store, outputs := [], err := none }).outputs 0 i hi
        rcases allocLoop_outputs_bound values
          { store := store, outputs := [], err := none } _ hmem with h1 | h1
        · simp at h1
        · have h1' : store.length ≤
              (allocLoop values { store := store, outputs := [], err := none }).outputs.getD i 0 :=
            h1
          omega
      have hlenout :
          (allocLoop values { store := store, outputs := [], err := none }).outputs.length
          = values.length := by
        have h2 := allocLoop_outputs_len_of_ok values
          { store := store, outputs := [], err := none } ha
        simpa using h2
      have hil : (Initialize comm
          (allocLoop values { store := store, outputs := [], err := none }).store
          values).indices.length ≤ values.length := by
        have h3 := initLoop_indices_le
          (allocLoop values { store := store, outputs := [], err := none }).store values
          { comm := comm, indices := [], numGPU := 0, lastGpu := none, err := none }
        simpa using h3
      have hframe := aggregateImpl_store_frame env comm
        (allocLoop values { store := store, outputs := [], err := none }).store values
        (allocLoop values { store := store, outputs := [], err := none }).outputs
        sendTo sched r hout (by omega) (by omega)
      calc valueAt (Aggregate env comm store values sendTo sched).st.store r
          = valueAt (AggregateImpl env comm
              (allocLoop values { store := store, outputs := [], err := none }).store values
              (allocLoop values { store := store, outputs := [], err := none }).outputs
              sendTo sched).store r := by
            rw [aggregate_alloc_ok env comm store values sendTo sched ha]
        _ = valueAt (allocLoop values { store := store, outputs := [], err := none }).store r :=
            hframe
        _ = valueAt store r := by
            rw [htail']
            exact valueAt_append_lt store tail r hr
  · -- `Aggregate` returns fresh outputs with the inputs' metadata.
    intro hv hm
    obtain ⟨hae, has, hao⟩ := allocLoop_ok_spec values
      { store := store, outputs := [], err := none } rfl hv hm
    have has' : (allocLoop values { store := store, outputs := [], err := none }).store
        = store ++ values.map (fun r => (freshOutput (valueAt store r)).getD default) := has
    have hao' : (allocLoop values { store := store, outputs := [], err := none }).outputs
        = List.range' store.length values.length := by
      simpa using hao
    refine ⟨?_, ?_⟩
    · rw [aggregate_alloc_ok env comm store values sendTo sched hae]
      exact hao'
    · intro i hi
      have hvala : valueAt
          (allocLoop values { store := store, outputs := [], err := none }).store
          (store.length + i) = (freshOutput (valueAt store (values.getD i 0))).getD default := by
        rw [has']
        unfold valueAt
        rw [getD_append_ge _ _ _ _ (Nat.le_add_right store.length i),
          show store.length + i - store.length = i from by omega,
          getD_map_lt values _ default 0 i hi]
      have hmem : values.getD i 0 ∈ values := getD_mem values 0 i hi
      obtain ⟨mm, hmm⟩ := Option.ne_none_iff_exists'.mp (hm _ hmem)
      have hfo : (freshOutput (valueAt store (values.getD i 0))).getD default
          = { view := { dataType := (valueAt store (values.getD i 0)).view.dataType,
                        shape := (valueAt store (values.getD i 0)).view.shape,
                        device := (valueAt store (values.getD i 0)).view.device,
                        storageFormat := StorageFormat.Dense, data := none },
              mask := some { shape := mm.shape, device := mm.device } } := by
        unfold freshOutput
        rw [hmm]
        rfl
      have hmeta := aggregateImpl_meta env comm
        (allocLoop values { store := store, outputs := [], err := none }).store values
        (allocLoop values { store := store, outputs := [], err := none }).outputs
        sendTo sched (store.length + i)
      rw [hvala, hfo] at hmeta
      have hdt := valueMeta_dataType hmeta
      have hsh := valueMeta_shape hmeta
      have hdev := valueMeta_device hmeta
      have hsf := valueMeta_storage hmeta
      rw [aggregate_alloc_ok env comm store values sendTo sched hae]
      exact ⟨hdt, hsh, hdev, hsf⟩

theorem aggregate_inplace_frame_effects_witness :
    (AggregateInPlace envThree commEmpty [cpuFloat [1, 2], cpuFloat [5]] [0, 1] []
      [some 0, some 1]).err = none
    ∧ (valueAt (AggregateInPlace envThree commEmpty [cpuFloat [1, 2], cpuFloat [5]] [0, 1] []
        [some 0, some 1]).store 0).view.data = some [3, 6]
    ∧ (valueAt (AggregateInPlace envThree commEmpty [cpuFloat [1, 2], cpuFloat [5]] [0, 1] []
        [some 0, some 1]).store 1).view.data = some [15]
    ∧ valueAt (Aggregate envThree commEmpty [cpuFloat [1, 2], cpuFloat [5]] [0, 1] []
        [some 0, some 1]).st.store 0 = cpuFloat [1, 2]
    ∧ (Aggregate envThree commEmpty [cpuFloat [1, 2], cpuFloat [5]] [0, 1] []
        [some 0, some 1]).outputs = [2, 3]
    ∧ (valueAt (Aggregate envThree commEmpty [cpuFloat [1, 2], cpuFloat [5]] [0, 1] []
        [some 0, some 1]).st.store 2).view.shape = [2] := by
  obtain ⟨h1, h2, h3⟩ := aggregate_inplace_frame_effects envThree commEmpty
    [cpuFloat [1, 2], cpuFloat [5]] [0, 1] [] [some 0, some 1]
  obtain ⟨he, hval⟩ := h1 (by decide) (by decide) (by decide) (by decide) (by decide)
  refine ⟨he, ?_, ?_, h2 0 (by decide), ?_, ?_⟩
  · have ha := hval 0 (by decide)
    have hb := congrArg (fun v => v.view.data) ha
    exact hb.trans (by decide)
  · have ha := hval 1 (by decide)
    have hb := congrArg (fun v => v.view.data) ha
    exact hb.trans (by decide)
  · have ha := (h3 (by decide) (by decide)).1
    exact ha.trans (by decide)
  · have ha := ((h3 (by decide) (by decide)).2 0 (by decide)).2.1
    exact ha.trans (by decide)

end CNTK
